import Mathlib

/-! # slicefmt: a shallow embedding of `slicefmt.go` and `fmtformatstring_shim.go`

The Go package formats a slice through `fmt`: `cfg.Fmt(vs)` pairs a
`*Config` with a `reflect.Value`, and `pair.Format` writes the framing,
the separators and the summary around the elements, each element being
handed to `fmt.Fprintf` with the format string rebuilt from the `fmt.State`.

Modelling choices.

* A Go `string` is a Lean `String` (text that is valid UTF-8).
* A Go `int` is an `Int`; the one subtraction that can leave the 64-bit
  range, `len - c.CutOff`, is wrapped explicitly by `wrapInt`.
* `Format` has no result and never inspects what `fmt.Fprint` returns, so
  a render is described completely by the sequence of calls it makes on
  its writer. `Format` below returns that sequence (`List Call`); each
  write records the statement that issued it (`Site`) and each external
  call records the text the callee produced. `output` is the text that
  reaches the sink. `OnWriter.Format` is the same code with the sink
  threaded through every statement, and is shown to make exactly those calls.
* `SepFunc` and `SummaryFunc` are modelled by the text they write as a
  function of their integer arguments. `WithState.Format` is the same code
  for callbacks that are closures with state of their own, and agrees with
  `Format` whenever the callbacks leave that state alone.
* `fmt.Fprintf(f, format, v.Index(i))` belongs to package `fmt`; its
  rendering of one element is the parameter `Fprintf`.
-/

namespace Slicefmt

/-! ## Machine integers -/

/-- Two's-complement wrap of an integer into the range of a 64-bit Go `int`. -/
def wrapInt (x : Int) : Int := (x + 2 ^ 63) % 2 ^ 64 - 2 ^ 63

/-! ## `reflect.Value` -/

/-- Kinds of `reflect.Kind` other than `Invalid` and `Slice`. -/
inductive OtherKind
  | Bool | Int | Uint | Float | Complex | Array | Chan | Func
  | Interface | Map | Pointer | String | Struct | UnsafePointer
  deriving DecidableEq, Repr

/-- The kinds of `reflect.Kind`, as far as `Format` tells them apart. -/
inductive Kind
  | Invalid
  | Slice
  | Other (k : OtherKind)
  deriving DecidableEq, Repr

/-- What `reflect.ValueOf(slice)` can be: the zero `Value` (from an untyped
`nil`), a typed nil slice, a non-nil slice with its elements, or a value of
some other kind. -/
inductive Value (α : Type)
  | invalid : Value α
  | nilSlice : Value α
  | slice (xs : List α) : Value α
  | other (k : OtherKind) : Value α

namespace Value

variable {α : Type}

/-- Go: `v.IsValid()`. -/
def IsValid : Value α → Bool
  | invalid => false
  | _ => true

/-- Go: `v.Type().Kind()` (`Kind.Invalid` stands for the zero `Value`, on which
Go would panic; `Format` only asks after `IsValid`). -/
def Kind : Value α → Slicefmt.Kind
  | invalid => Slicefmt.Kind.Invalid
  | nilSlice => Slicefmt.Kind.Slice
  | slice _ => Slicefmt.Kind.Slice
  | other k => Slicefmt.Kind.Other k

/-- The elements of a value of slice kind (none for anything else). -/
def elems : Value α → List α
  | slice xs => xs
  | _ => []

/-- Go: `v.Len()` on a value of slice kind. -/
def Len (v : Value α) : Int := (v.elems.length : Int)

/-- Go: `v.IsNil()` on a value of slice kind. -/
def IsNil : Value α → Bool
  | nilSlice => true
  | _ => false

/-- Go: `v.Index(i)`; `none` stands for the out-of-range panic. -/
def Index (v : Value α) (i : Int) : Option α :=
  if 0 ≤ i then v.elems[i.toNat]? else none

end Value

/-! ## `fmt.State` and the rebuilt format string -/

/-- The part of `fmt.State` that `fmtFormatString` reads: `Flag(c)`, and
`Width()` / `Precision()` with their `ok` result as an `Option`. -/
structure State where
  Flag : Int → Bool
  Width : Option Int
  Precision : Option Int

/-- The ASCII digit for `d < 10`. -/
def digitChar (d : Nat) : Char := Char.ofNat (48 + d)

/-- Base-10 digits of a natural number, most significant first. -/
def formatNat (n : Nat) : String :=
  if n = 0 then "0" else String.mk ((Nat.digits 10 n).reverse.map digitChar)

/-- Go: `strconv.AppendInt(b, i, 10)`. -/
def AppendInt (b : String) (i : Int) : String :=
  if i < 0 then b ++ "-" ++ formatNat i.natAbs else b ++ formatNat i.toNat

/-- Go: `utf8.AppendRune(b, r)`: a rune that is not a Unicode scalar value is
encoded as `utf8.RuneError` (U+FFFD). -/
def AppendRune (b : String) (r : Int) : String :=
  if 0 ≤ r ∧ r.toNat.isValidChar then b.push (Char.ofNat r.toNat)
  else b.push (Char.ofNat 0xFFFD)

/-- Go: `fmtFormatString(state, verb)`. -/
def fmtFormatString (state : State) (verb : Int) : String :=
  let b := "%"
  let b := " +-#0".toList.foldl
    (fun b c => if state.Flag (c.toNat : Int) then b.push c else b) b
  let b := match state.Width with
    | some w => AppendInt b w
    | none => b
  let b := match state.Precision with
    | some p => AppendInt (b.push '.') p
    | none => b
  AppendRune b verb

/-! ## The configuration and the calls a render makes -/

/-- Go: `type SepFunc = func(w io.Writer, n, last int)`, as the text written to `w`. -/
abbrev SepFunc := Int → Int → String

/-- Go: `type SummaryFunc = func(w io.Writer, n int)`, as the text written to `w`. -/
abbrev SummaryFunc := Int → String

/-- Go: `type Config struct`. A `nil` func field is `none`. -/
structure Config where
  Prefix : String := ""
  Postfix : String := ""
  Nil : String := ""
  Len0 : String := ""
  Empty : String := ""
  Sep : String := ""
  SepFunc : Option SepFunc := none
  CutOff : Int := 0
  Summary : String := ""
  SummaryFunc : Option SummaryFunc := none

/-- The statement of `slicefmt.go` that issues a `fmt.Fprint`. -/
inductive Site
  | nilConfig
  | notSlice
  | fmtPrefix
  | fmtEmpty
  | fmtSep
  | fmtPostfix
  | fmtSummary
  deriving DecidableEq, Repr

/-- One call made on the writer during a render. -/
inductive Call
  /-- `fmt.Fprint(w, s)`, issued by the statement `site`. -/
  | write (site : Site) (s : String)
  /-- `fmt.Fprintf(f, format, v.Index(i))`, which produced `out`. -/
  | element (format : String) (i : Int) (out : String)
  /-- `c.SepFunc(w, n, last)`, which wrote `out`. -/
  | sepFunc (n last : Int) (out : String)
  /-- `c.SummaryFunc(w, n)`, which wrote `out`. -/
  | summaryFunc (n : Int) (out : String)
  /-- `v.Index(i)` out of range. -/
  | indexPanic (i : Int)
  deriving DecidableEq, Repr

/-- The text a call adds to the sink. -/
def Call.text : Call → String
  | Call.write _ s => s
  | Call.element _ _ out => out
  | Call.sepFunc _ _ out => out
  | Call.summaryFunc _ out => out
  | Call.indexPanic _ => ""

/-- The text in the sink after a sequence of calls. -/
def output : List Call → String
  | [] => ""
  | c :: cs => c.text ++ output cs

/-- Go: `print(w, s)`: nothing for the empty string, else one `fmt.Fprint`. -/
def print (site : Site) (s : String) : List Call :=
  if s ≠ "" then [Call.write site s] else []

namespace Config

/-- Go: `(c *Config) lengths(len)`. -/
def lengths (c : Config) (len : Int) : Int × Int :=
  if c.CutOff ≠ 0 ∧ len > c.CutOff then
    (c.CutOff, wrapInt (len - c.CutOff))
  else
    (len, 0)

/-- Go: `(c *Config) fmtPrefix(w)`. -/
def fmtPrefix (c : Config) : List Call :=
  print Site.fmtPrefix c.Prefix

/-- Go: `(c *Config) fmtEmpty(w, isNil)`. -/
def fmtEmpty (c : Config) (isNil : Bool) : List Call :=
  let s := c.Empty
  let s := if s = "" then (if isNil then c.Nil else c.Len0) else s
  print Site.fmtEmpty s

/-- Go: `(c *Config) fmtSep(w, n, last)`. -/
def fmtSep (c : Config) (n last : Int) : List Call :=
  match c.SepFunc with
  | some f => [Call.sepFunc n last (f n last)]
  | none => print Site.fmtSep c.Sep

/-- Go: `(c *Config) fmtEnd(w, n)`. -/
def fmtEnd (c : Config) (n : Int) : List Call :=
  if n = 0 then
    print Site.fmtPostfix c.Postfix
  else
    match c.SummaryFunc with
    | some g => [Call.summaryFunc n (g n)]
    | none => print Site.fmtSummary c.Summary

end Config

/-- Go: `type pair struct { c *Config; v reflect.Value }`; a nil `*Config` is `none`. -/
structure pair (α : Type) where
  c : Option Config
  v : Value α

/-- Go: `(c *Config) Fmt(slice any)`, the argument already seen through `reflect.ValueOf`. -/
def Fmt {α : Type} (c : Option Config) (slice : Value α) : pair α :=
  { c := c, v := slice }

/-- The `for i := 0; i < N; i++` loop of `pair.Format`, from index `i` on. -/
def formatLoop {α : Type} (cfg : Config) (Fprintf : String → α → String)
    (format : String) (v : Value α) (N : Int) (i : Int) : List Call :=
  if i < N then
    (if i ≠ 0 then cfg.fmtSep (i - 1) (N - 2) else []) ++
      (match v.Index i with
       | none => [Call.indexPanic i]
       | some x =>
          Call.element format i (Fprintf format x) ::
            formatLoop cfg Fprintf format v N (i + 1))
  else
    []
termination_by (N - i).toNat
decreasing_by omega

/-- Go: `(p pair) Format(f fmt.State, verb rune)`. -/
def pair.Format {α : Type} (p : pair α) (Fprintf : String → α → String)
    (f : State) (verb : Int) : List Call :=
  match p.c with
  | none => [Call.write Site.nilConfig "%!(slice formatter given nil *Config)"]
  | some cfg =>
    if p.v.IsValid = false ∨ p.v.Kind ≠ Kind.Slice then
      [Call.write Site.notSlice "%!(slice formatter only formats slices)"]
    else
      let L := p.v.Len
      if L = 0 then
        cfg.fmtEmpty p.v.IsNil
      else
        let (N, leftovers) := cfg.lengths L
        cfg.fmtPrefix ++ formatLoop cfg Fprintf (fmtFormatString f verb) p.v N 0
          ++ cfg.fmtEnd leftovers

/-! ## Reading a sequence of calls -/

/-- The `fmt.Fprintf` element calls of a render, in order: format string,
index and produced text. -/
def elementCalls (tr : List Call) : List (String × Int × String) :=
  tr.filterMap fun c =>
    match c with
    | Call.element format i out => some (format, i, out)
    | _ => none

/-- The `(n, last)` arguments of the `SepFunc` invocations of a render, in order. -/
def sepFuncCalls (tr : List Call) : List (Int × Int) :=
  tr.filterMap fun c =>
    match c with
    | Call.sepFunc n last _ => some (n, last)
    | _ => none

/-- The `n` arguments of the `SummaryFunc` invocations of a render, in order. -/
def summaryFuncCalls (tr : List Call) : List Int :=
  tr.filterMap fun c =>
    match c with
    | Call.summaryFunc n _ => some n
    | _ => none

/-- The strings written by the statement `site` during a render, in order. -/
def writesAt (site : Site) (tr : List Call) : List String :=
  tr.filterMap fun c =>
    match c with
    | Call.write s t => if s = site then some t else none
    | _ => none

/-- The calls of the loop, element by element: `i` is the index of the head
of the list of elements still to be visited. -/
def loopCalls {α : Type} (cfg : Config) (Fprintf : String → α → String)
    (format : String) (last : Int) : Nat → List α → List Call
  | _, [] => []
  | i, x :: rest =>
      (if i = 0 then [] else cfg.fmtSep ((i : Int) - 1) last) ++
        Call.element format (i : Int) (Fprintf format x) ::
          loopCalls cfg Fprintf format last (i + 1) rest

/-! ## The rendered text in the words of the specification -/

/-- The separator text for gap `n`: what `SepFunc` writes for `(n, last)` when
it is set, otherwise `Sep`. -/
def sepText (cfg : Config) (n last : Int) : String :=
  match cfg.SepFunc with
  | some sf => sf n last
  | none => cfg.Sep

/-- The end text: `Postfix` when nothing was omitted, otherwise what
`SummaryFunc` writes for `omitted` when it is set, otherwise `Summary`. -/
def endText (cfg : Config) (omitted : Int) : String :=
  if omitted = 0 then cfg.Postfix
  else
    match cfg.SummaryFunc with
    | some g => g omitted
    | none => cfg.Summary

/-- The shown elements, each formatted with `format`, with one separator
text before every element but the first; `i` is the index of the head. -/
def elementsText {α : Type} (cfg : Config) (Fprintf : String → α → String)
    (format : String) (last : Int) : Nat → List α → String
  | _, [] => ""
  | i, x :: rest =>
      (if i = 0 then "" else sepText cfg ((i : Int) - 1) last) ++ Fprintf format x ++
        elementsText cfg Fprintf format last (i + 1) rest

/-- The whole text of a render of the non-empty slice `xs`, as the
specification words it: prefix, shown elements with separators, end text. -/
def renderText {α : Type} (cfg : Config) (Fprintf : String → α → String)
    (format : String) (xs : List α) : String :=
  cfg.Prefix ++
    elementsText cfg Fprintf format ((cfg.lengths xs.length).1 - 2) 0
      (xs.take (cfg.lengths xs.length).1.toNat) ++
    endText cfg (cfg.lengths xs.length).2

/-- The element calls expected for the elements `xs` visited from index `i` on. -/
def expectedElements {α : Type} (Fprintf : String → α → String) (format : String) :
    Nat → List α → List (String × Int × String)
  | _, [] => []
  | i, x :: rest =>
      (format, (i : Int), Fprintf format x) :: expectedElements Fprintf format (i + 1) rest

/-- The placeholder chosen for a slice of length 0. -/
def placeholder (cfg : Config) (isNil : Bool) : String :=
  if cfg.Empty ≠ "" then cfg.Empty else if isNil then cfg.Nil else cfg.Len0

/-! ## Stand-ins for `fmt` in the examples of `slicefmt_test.go` -/

/-- No flag, no width, no precision, as under `fmt.Println` or a bare verb. -/
def plainState : State := { Flag := fun _ => false, Width := none, Precision := none }

/-- The rune `v`. -/
def verbV : Int := 118

/-- The rune `q`. -/
def verbQ : Int := 113

/-- How `fmt` renders an `int` under `%v` or `%d`. -/
def fprintfInt (format : String) (x : Int) : String :=
  if format = "%v" ∨ format = "%d" then AppendInt "" x else "%!(unmodelled)"

/-- How `fmt` renders a `string` without special characters under `%v` and `%q`. -/
def fprintfString (format : String) (x : String) : String :=
  if format = "%q" then "\"" ++ x ++ "\""
  else if format = "%v" then x else "%!(unmodelled)"

/-- The `SepFunc` of `Example_commas` (notOxford) and `Example_complex`. -/
def commaAnd : SepFunc := fun n last => if n = last then " and " else ", "

/-- The `SummaryFunc` of `Example_summary` and `Example_complex`. -/
def andMore : SummaryFunc := fun n => AppendInt " (and " n ++ " more)"

/-- The Config of `Example_commas` (notOxford). -/
def notOxford : Config := { SepFunc := some commaAnd }

/-- The Config `simple` of `Example_summary`. -/
def summarySimple : Config := { Sep := "/", CutOff := 2, Summary := " and so on" }

/-- The Config `complex` of `Example_summary`. -/
def summaryComplex : Config := { Sep := "/", CutOff := 2, SummaryFunc := some andMore }

/-- The Config of `Example_complex`. -/
def exampleComplex : Config :=
  { Empty := "none", CutOff := 3, SepFunc := some commaAnd, SummaryFunc := some andMore }

/-- A Config with a negative CutOff and the `(and n more)` SummaryFunc. -/
def negativeCutOff : Config := { CutOff := -1, SummaryFunc := some andMore }

/-- A Config with the least 64-bit CutOff and the `(and n more)` SummaryFunc. -/
def minCutOff : Config := { CutOff := -2 ^ 63, SummaryFunc := some andMore }

/-! ## The format string in the words of the specification -/

/-- The recognised flag characters, in the fixed order of the scan. -/
def knownFlags : List Char := [' ', '+', '-', '#', '0']

/-- Those of the recognised flag characters whose flag is set, in scan order. -/
def flagChars (state : State) : List Char :=
  knownFlags.filter (fun c => state.Flag (c.toNat : Int))

/-- The base-10 text of an integer: a minus sign for a negative one, then
the digits of its magnitude. -/
def decimal (i : Int) : String :=
  (if i < 0 then "-" else "") ++ formatNat i.natAbs

/-- The number a string of ASCII digits denotes in base 10. -/
def parseNat (s : String) : Nat :=
  s.data.foldl (fun acc c => 10 * acc + (c.toNat - 48)) 0

/-- The character that encodes a rune: the rune itself when it is a Unicode
scalar value, otherwise U+FFFD. -/
def verbChar (verb : Int) : Char :=
  if 0 ≤ verb ∧ verb.toNat.isValidChar then Char.ofNat verb.toNat else Char.ofNat 0xFFFD

/-- The format string as the specification words it: `%`, the set flags, the
width if present, `.` and the precision if present, the verb. -/
def formatStringText (state : State) (verb : Int) : String :=
  "%" ++ String.mk (flagChars state)
    ++ (match state.Width with
        | some w => decimal w
        | none => "")
    ++ (match state.Precision with
        | some p => "." ++ decimal p
        | none => "")
    ++ String.singleton (verbChar verb)

/-- The state of `%02d`: flag `0`, width 2, no precision. -/
def zeroPad2 : State := { Flag := fun c => c == 48, Width := some 2, Precision := none }

/-- The rune `d`. -/
def verbD : Int := 100

/-- How `fmt` renders a non-negative `int` under `%02d` (and `%d`, `%v`). -/
def fprintfIntPadded (format : String) (x : Int) : String :=
  if format = "%02d" then (if 0 ≤ x ∧ x < 10 then "0" else "") ++ AppendInt "" x
  else if format = "%v" ∨ format = "%d" then AppendInt "" x
  else "%!(unmodelled)"

/-- The Config of `Example_simple`. -/
def exampleSimple : Config := { Nil := "<nil>", Len0 := "<none>", Sep := " ~ " }

/-! ## The same code on an explicit writer

`Format` read once more, this time threading the sink through every
statement: each `fmt.Fprint` / `fmt.Fprintf` / callback is one `Write` on the
writer, and, as in the source, what the call returns is dropped. -/

/-- Go: an `io.Writer`, as a state machine: `Write st s` is the sink after the
call and whether the call returned an error. -/
structure Writer (σ : Type) where
  Write : σ → String → σ × Bool

/-- Making one call of a render on a writer, its result dropped. -/
def Call.on {σ : Type} (w : Writer σ) (st : σ) : Call → σ
  | Call.indexPanic _ => st
  | c => (w.Write st c.text).1

/-- Making the calls of a render on a writer, one after the other. -/
def runCalls {σ : Type} (w : Writer σ) (st : σ) (tr : List Call) : σ :=
  tr.foldl (Call.on w) st

namespace OnWriter

variable {σ α : Type}

/-- Go: `fmt.Fprint(w, s)` used as a statement: the `(n, err)` result is dropped. -/
def Fprint (w : Writer σ) (st : σ) (s : String) : σ :=
  (w.Write st s).1

/-- Go: `print(w, s)`. -/
def print (w : Writer σ) (st : σ) (s : String) : σ :=
  if s ≠ "" then Fprint w st s else st

/-- Go: `(c *Config) fmtPrefix(w)`. -/
def fmtPrefix (w : Writer σ) (c : Config) (st : σ) : σ :=
  print w st c.Prefix

/-- Go: `(c *Config) fmtEmpty(w, isNil)`. -/
def fmtEmpty (w : Writer σ) (c : Config) (st : σ) (isNil : Bool) : σ :=
  let s := c.Empty
  let s := if s = "" then (if isNil then c.Nil else c.Len0) else s
  print w st s

/-- Go: `(c *Config) fmtSep(w, n, last)`; the callback writes its text on `w`. -/
def fmtSep (w : Writer σ) (c : Config) (st : σ) (n last : Int) : σ :=
  match c.SepFunc with
  | some sf => Fprint w st (sf n last)
  | none => print w st c.Sep

/-- Go: `(c *Config) fmtEnd(w, n)`; the callback writes its text on `w`. -/
def fmtEnd (w : Writer σ) (c : Config) (st : σ) (n : Int) : σ :=
  if n = 0 then
    print w st c.Postfix
  else
    match c.SummaryFunc with
    | some g => Fprint w st (g n)
    | none => print w st c.Summary

/-- The `for i := 0; i < N; i++` loop of `pair.Format`, from index `i` on. -/
def formatLoop (w : Writer σ) (cfg : Config) (Fprintf : String → α → String)
    (format : String) (v : Value α) (N : Int) (i : Int) (st : σ) : σ :=
  if i < N then
    let st := if i ≠ 0 then fmtSep w cfg st (i - 1) (N - 2) else st
    match v.Index i with
    | none => st
    | some x => formatLoop w cfg Fprintf format v N (i + 1) (Fprint w st (Fprintf format x))
  else
    st
termination_by (N - i).toNat
decreasing_by omega

/-- Go: `(p pair) Format(f fmt.State, verb rune)`: no result, only the sink changes. -/
def Format (w : Writer σ) (p : pair α) (Fprintf : String → α → String)
    (f : State) (verb : Int) (st : σ) : σ :=
  match p.c with
  | none => Fprint w st "%!(slice formatter given nil *Config)"
  | some cfg =>
    if p.v.IsValid = false ∨ p.v.Kind ≠ Kind.Slice then
      Fprint w st "%!(slice formatter only formats slices)"
    else
      let L := p.v.Len
      if L = 0 then
        fmtEmpty w cfg st p.v.IsNil
      else
        let (N, leftovers) := cfg.lengths L
        let st := fmtPrefix w cfg st
        let st := formatLoop w cfg Fprintf (fmtFormatString f verb) p.v N 0 st
        fmtEnd w cfg st leftovers

end OnWriter

/-- A sink that counts the calls made on it and keeps the text of those that
succeed; call number `k` (counting from 0) fails and leaves no text. -/
def failingAt (k : Nat) : Writer (Nat × String) :=
  { Write := fun st s =>
      if st.1 = k then ((st.1 + 1, st.2), true) else ((st.1 + 1, st.2 ++ s), false) }

/-- A sink that never fails and keeps all the text written to it. -/
def recorder : Writer String :=
  { Write := fun st s => (st ++ s, false) }

/-- The Config of `Example_default`. -/
def exampleDefault : Config := { Empty := "[]", Prefix := "[", Postfix := "]", Sep := " " }

/-- The calls of a render that reach the writer (`indexPanic` is none). -/
def madeCalls (tr : List Call) : Nat :=
  (tr.filter fun c =>
    match c with
    | Call.indexPanic _ => false
    | _ => true).length

/-- The Config of `Example_default` with a negative CutOff and a Summary. -/
def negativeDefault : Config :=
  { Prefix := "[", Postfix := "]", Sep := " ", CutOff := -1, Summary := " and so on" }

/-- The string each writing statement of `slicefmt.go` hands to its
`fmt.Fprint`, for a Config and the `isNil` of the value. -/
def siteText (cfg : Config) (isNil : Bool) : Site → String
  | Site.nilConfig => "%!(slice formatter given nil *Config)"
  | Site.notSlice => "%!(slice formatter only formats slices)"
  | Site.fmtPrefix => cfg.Prefix
  | Site.fmtEmpty => placeholder cfg isNil
  | Site.fmtSep => cfg.Sep
  | Site.fmtPostfix => cfg.Postfix
  | Site.fmtSummary => cfg.Summary

/-- The characters the width contributes to the format string. -/
def widthChars (state : State) : List Char :=
  match state.Width with
  | some w => (decimal w).data
  | none => []

/-- The characters the precision contributes to the format string. -/
def precisionChars (state : State) : List Char :=
  match state.Precision with
  | some p => '.' :: (decimal p).data
  | none => []

/-- Whether a character is one of the recognised flags. -/
def isFlagChar (c : Char) : Bool := knownFlags.contains c

/-- The state of `%+012.3f`: flags `+` and `0`, width 12, precision 3. -/
def signedPadded : State :=
  { Flag := fun c => c == 48 || c == 43, Width := some 12, Precision := some 3 }

/-- The same state, with one more flag set that is not among the recognised five. -/
def signedPaddedExtra : State :=
  { Flag := fun c => c == 48 || c == 43 || c == 1, Width := some 12, Precision := some 3 }

/-- The rune `f`. -/
def verbF : Int := 102

/-- The text of the render of a value of slice kind, in the words of the
specification: the placeholder for length 0, otherwise the rendered text. -/
def sliceText {α : Type} (cfg : Config) (Fprintf : String → α → String)
    (format : String) (v : Value α) : String :=
  if v.Len = 0 then placeholder cfg v.IsNil else renderText cfg Fprintf format v.elems

/-- A Config whose Empty spells the non-slice diagnostic. -/
def spellsDiagnostic : Config := { Empty := "%!(slice formatter only formats slices)" }

/-! ## Callbacks that keep state of their own

A Go func value may close over variables and change them when it is called.
Here SepFunc and SummaryFunc read and update a state `κ` of their own, and
`Format` is read once more with that state threaded through the two places
where a callback is invoked; nothing else in `slicefmt.go` assigns to
anything that outlives the call. -/

/-- Go: `type Config struct`, its two func fields as closures over `κ`: given
the state they find, they write a text and leave a state. -/
structure ClosureConfig (κ : Type) where
  Prefix : String := ""
  Postfix : String := ""
  Nil : String := ""
  Len0 : String := ""
  Empty : String := ""
  Sep : String := ""
  SepFunc : Option (κ → Int → Int → String × κ) := none
  CutOff : Int := 0
  Summary : String := ""
  SummaryFunc : Option (κ → Int → String × κ) := none

namespace WithState

variable {κ α : Type}

/-- Go: `(c *Config) lengths(len)`. -/
def lengths (c : ClosureConfig κ) (len : Int) : Int × Int :=
  if c.CutOff ≠ 0 ∧ len > c.CutOff then
    (c.CutOff, wrapInt (len - c.CutOff))
  else
    (len, 0)

/-- Go: `(c *Config) fmtPrefix(w)`. -/
def fmtPrefix (c : ClosureConfig κ) : List Call :=
  print Site.fmtPrefix c.Prefix

/-- Go: `(c *Config) fmtEmpty(w, isNil)`. -/
def fmtEmpty (c : ClosureConfig κ) (isNil : Bool) : List Call :=
  let s := c.Empty
  let s := if s = "" then (if isNil then c.Nil else c.Len0) else s
  print Site.fmtEmpty s

/-- Go: `(c *Config) fmtSep(w, n, last)`: the calls made and the state left. -/
def fmtSep (c : ClosureConfig κ) (k : κ) (n last : Int) : List Call × κ :=
  match c.SepFunc with
  | some sf => ([Call.sepFunc n last (sf k n last).1], (sf k n last).2)
  | none => (print Site.fmtSep c.Sep, k)

/-- Go: `(c *Config) fmtEnd(w, n)`: the calls made and the state left. -/
def fmtEnd (c : ClosureConfig κ) (k : κ) (n : Int) : List Call × κ :=
  if n = 0 then
    (print Site.fmtPostfix c.Postfix, k)
  else
    match c.SummaryFunc with
    | some g => ([Call.summaryFunc n (g k n).1], (g k n).2)
    | none => (print Site.fmtSummary c.Summary, k)

/-- The `for i := 0; i < N; i++` loop of `pair.Format`, from index `i` on. -/
def formatLoop (cfg : ClosureConfig κ) (Fprintf : String → α → String)
    (format : String) (v : Value α) (N : Int) (i : Int) (k : κ) : List Call × κ :=
  if i < N then
    let sep := if i ≠ 0 then fmtSep cfg k (i - 1) (N - 2) else ([], k)
    match v.Index i with
    | none => (sep.1 ++ [Call.indexPanic i], sep.2)
    | some x =>
      let rest := formatLoop cfg Fprintf format v N (i + 1) sep.2
      (sep.1 ++ Call.element format i (Fprintf format x) :: rest.1, rest.2)
  else
    ([], k)
termination_by (N - i).toNat
decreasing_by omega

/-- Go: `(p pair) Format(f fmt.State, verb rune)`, for `p.c = c` and
`p.v = v`: the calls made and the state the callbacks are left in. -/
def Format (c : Option (ClosureConfig κ)) (v : Value α) (Fprintf : String → α → String)
    (f : State) (verb : Int) (k : κ) : List Call × κ :=
  match c with
  | none => ([Call.write Site.nilConfig "%!(slice formatter given nil *Config)"], k)
  | some cfg =>
    if v.IsValid = false ∨ v.Kind ≠ Kind.Slice then
      ([Call.write Site.notSlice "%!(slice formatter only formats slices)"], k)
    else
      let L := v.Len
      if L = 0 then
        (fmtEmpty cfg v.IsNil, k)
      else
        let (N, leftovers) := lengths cfg L
        let body := formatLoop cfg Fprintf (fmtFormatString f verb) v N 0 k
        let tail := fmtEnd cfg body.2 leftovers
        (fmtPrefix cfg ++ body.1 ++ tail.1, tail.2)

end WithState

/-- The Config a ClosureConfig amounts to for as long as its state is `k`:
each callback writes what the closure writes in state `k`. -/
def ClosureConfig.freeze {κ : Type} (c : ClosureConfig κ) (k : κ) : Config :=
  { Prefix := c.Prefix
    Postfix := c.Postfix
    Nil := c.Nil
    Len0 := c.Len0
    Empty := c.Empty
    Sep := c.Sep
    SepFunc := c.SepFunc.map (fun sf n last => (sf k n last).1)
    CutOff := c.CutOff
    Summary := c.Summary
    SummaryFunc := c.SummaryFunc.map (fun g n => (g k n).1) }

/-- A SepFunc that counts its invocations: called for the `k+1`-th time it
writes `k+1` dashes. -/
def countingSep : ClosureConfig Nat :=
  { SepFunc := some (fun k _ _ => (String.mk (List.replicate (k + 1) '-'), k + 1)) }

/-- The `, ` / ` and ` SepFunc of `Example_commas` as a closure that reads
its state and leaves it as it is. -/
def readingSep : ClosureConfig Nat :=
  { SepFunc := some (fun k n last => (if n = last then " and " else ", ", k)) }

/-! ## The loop in closed form -/

theorem formatLoop_done {α : Type} (cfg : Config) (Fprintf : String → α → String)
    (format : String) (v : Value α) (N i : Int) (h : N ≤ i) :
    formatLoop cfg Fprintf format v N i = [] := by
  rw [formatLoop]
  simp [not_lt.mpr h]

theorem formatLoop_eq_loopCalls {α : Type} (cfg : Config) (Fprintf : String → α → String)
    (format : String) (xs : List α) (N : Int) :
    ∀ (k i : Nat), ((i : Int) + k = N) → i + k ≤ xs.length →
      formatLoop cfg Fprintf format (Value.slice xs) N i
        = loopCalls cfg Fprintf format (N - 2) i ((xs.drop i).take k) := by
  intro k
  induction k with
  | zero =>
    intro i hN _
    rw [formatLoop_done _ _ _ _ _ _ (by omega)]
    simp [loopCalls]
  | succ k ih =>
    intro i hN hle
    have hi : i < xs.length := by omega
    rw [formatLoop]
    have hlt : (i : Int) < N := by omega
    have hidx : (Value.slice xs).Index (i : Int) = some (xs.get ⟨i, hi⟩) := by
      simp [Value.Index, Value.elems, List.getElem?_eq_getElem hi]
    have hdrop : (xs.drop i).take (k + 1) = xs.get ⟨i, hi⟩ :: (xs.drop (i + 1)).take k := by
      rw [List.drop_eq_getElem_cons hi, List.take_succ_cons]
      rfl
    rw [if_pos hlt, hidx, hdrop]
    simp only [loopCalls]
    have := ih (i + 1) (by push_cast; omega) (by omega)
    push_cast at this
    rw [this]
    by_cases h0 : i = 0
    · subst h0; simp
    · have : (i : Int) ≠ 0 := by omega
      simp [h0, this]

/-- What `lengths` returns first never exceeds the length. -/
theorem lengths_fst_le (cfg : Config) (len : Int) : (cfg.lengths len).1 ≤ len := by
  unfold Config.lengths
  split
  · rename_i h; exact le_of_lt h.2
  · exact le_refl _

/-- The whole loop, started at 0 as `Format` does: the calls for the first
`N` elements (none when `N ≤ 0`). -/
theorem formatLoop_zero {α : Type} (cfg : Config) (Fprintf : String → α → String)
    (format : String) (xs : List α) (N : Int) (hN : N ≤ xs.length) :
    formatLoop cfg Fprintf format (Value.slice xs) N 0
      = loopCalls cfg Fprintf format (N - 2) 0 (xs.take N.toNat) := by
  by_cases h : N ≤ 0
  · rw [formatLoop_done _ _ _ _ _ _ h]
    have : N.toNat = 0 := by omega
    simp [this, loopCalls]
  · have := formatLoop_eq_loopCalls cfg Fprintf format xs N N.toNat 0 (by omega) (by omega)
    simpa using this

/-- The render of a non-empty slice: prefix, loop, end. -/
theorem Format_slice {α : Type} (cfg : Config) (Fprintf : String → α → String)
    (f : State) (verb : Int) (xs : List α) (hxs : xs ≠ []) :
    (Fmt (some cfg) (Value.slice xs)).Format Fprintf f verb
      = cfg.fmtPrefix
        ++ loopCalls cfg Fprintf (fmtFormatString f verb) ((cfg.lengths xs.length).1 - 2) 0
            (xs.take (cfg.lengths xs.length).1.toNat)
        ++ cfg.fmtEnd (cfg.lengths xs.length).2 := by
  have hlen : (xs.length : Int) ≠ 0 := by
    have := List.length_pos.mpr hxs
    omega
  simp only [Fmt, pair.Format, Value.IsValid, Value.Kind, Value.Len, Value.elems]
  simp only [hlen, if_false, ne_eq, not_true_eq_false, or_self, Bool.true_eq_false]
  rw [formatLoop_zero _ _ _ _ _ (lengths_fst_le cfg _)]

/-! ## Text and calls of the pieces -/

theorem output_append (a b : List Call) : output (a ++ b) = output a ++ output b := by
  induction a with
  | nil => simp [output]
  | cons c cs ih => simp [output, ih, String.append_assoc]

theorem output_print (site : Site) (s : String) : output (print site s) = s := by
  unfold print
  by_cases h : s = ""
  · simp [h, output]
  · simp [h, output, Call.text]

theorem output_fmtSep (cfg : Config) (n last : Int) :
    output (cfg.fmtSep n last) = sepText cfg n last := by
  unfold Config.fmtSep sepText
  cases cfg.SepFunc with
  | none => simp [output_print]
  | some sf => simp [output, Call.text]

theorem output_fmtEnd (cfg : Config) (n : Int) :
    output (cfg.fmtEnd n) = endText cfg n := by
  unfold Config.fmtEnd endText
  by_cases h : n = 0
  · simp [h, output_print]
  · simp only [h, if_false]
    cases cfg.SummaryFunc with
    | none => simp [output_print]
    | some g => simp [output, Call.text]

theorem output_loopCalls {α : Type} (cfg : Config) (Fprintf : String → α → String)
    (format : String) (last : Int) (xs : List α) :
    ∀ i : Nat, output (loopCalls cfg Fprintf format last i xs)
      = elementsText cfg Fprintf format last i xs := by
  induction xs with
  | nil => intro i; simp [loopCalls, elementsText, output]
  | cons x rest ih =>
    intro i
    simp only [loopCalls, elementsText, output_append, output, Call.text, ih]
    by_cases h0 : i = 0
    · simp [h0, output, String.append_assoc]
    · simp [h0, output_fmtSep, String.append_assoc]

theorem elementCalls_append (a b : List Call) :
    elementCalls (a ++ b) = elementCalls a ++ elementCalls b := by
  simp [elementCalls, List.filterMap_append]

theorem sepFuncCalls_append (a b : List Call) :
    sepFuncCalls (a ++ b) = sepFuncCalls a ++ sepFuncCalls b := by
  simp [sepFuncCalls, List.filterMap_append]

theorem summaryFuncCalls_append (a b : List Call) :
    summaryFuncCalls (a ++ b) = summaryFuncCalls a ++ summaryFuncCalls b := by
  simp [summaryFuncCalls, List.filterMap_append]

theorem writesAt_append (site : Site) (a b : List Call) :
    writesAt site (a ++ b) = writesAt site a ++ writesAt site b := by
  simp [writesAt, List.filterMap_append]

theorem elementCalls_print (site : Site) (s : String) : elementCalls (print site s) = [] := by
  unfold print; split <;> simp [elementCalls]

theorem sepFuncCalls_print (site : Site) (s : String) : sepFuncCalls (print site s) = [] := by
  unfold print; split <;> simp [sepFuncCalls]

theorem summaryFuncCalls_print (site : Site) (s : String) :
    summaryFuncCalls (print site s) = [] := by
  unfold print; split <;> simp [summaryFuncCalls]

theorem writesAt_print_ne (site site' : Site) (s : String) (h : site' ≠ site) :
    writesAt site (print site' s) = [] := by
  unfold print; split <;> simp [writesAt, h]

theorem elementCalls_fmtSep (cfg : Config) (n last : Int) :
    elementCalls (cfg.fmtSep n last) = [] := by
  unfold Config.fmtSep
  cases cfg.SepFunc with
  | none => simp [elementCalls_print]
  | some sf => simp [elementCalls]

theorem elementCalls_fmtEnd (cfg : Config) (n : Int) : elementCalls (cfg.fmtEnd n) = [] := by
  unfold Config.fmtEnd
  split
  · exact elementCalls_print _ _
  · cases cfg.SummaryFunc with
    | none => simp [elementCalls_print]
    | some g => simp [elementCalls]

theorem elementCalls_loopCalls {α : Type} (cfg : Config) (Fprintf : String → α → String)
    (format : String) (last : Int) (xs : List α) :
    ∀ i : Nat, elementCalls (loopCalls cfg Fprintf format last i xs)
      = expectedElements Fprintf format i xs := by
  induction xs with
  | nil => intro i; simp [loopCalls, expectedElements, elementCalls]
  | cons x rest ih =>
    intro i
    simp only [loopCalls, expectedElements, elementCalls_append]
    have hcons : ∀ (c : Call) (t : List Call),
        elementCalls (c :: t) = elementCalls [c] ++ elementCalls t := by
      intro c t; exact elementCalls_append [c] t
    rw [hcons, ih]
    by_cases h0 : i = 0
    · simp [h0, elementCalls]
    · rw [if_neg h0, elementCalls_fmtSep]
      simp [elementCalls]

theorem expectedElements_length {α : Type} (Fprintf : String → α → String) (format : String)
    (xs : List α) : ∀ i : Nat, (expectedElements Fprintf format i xs).length = xs.length := by
  induction xs with
  | nil => intro i; simp [expectedElements]
  | cons x rest ih => intro i; simp [expectedElements, ih]

/-- The element calls of the render of a non-empty slice. -/
theorem elementCalls_Format {α : Type} (cfg : Config) (Fprintf : String → α → String)
    (f : State) (verb : Int) (xs : List α) (hxs : xs ≠ []) :
    elementCalls ((Fmt (some cfg) (Value.slice xs)).Format Fprintf f verb)
      = expectedElements Fprintf (fmtFormatString f verb) 0
          (xs.take (cfg.lengths xs.length).1.toNat) := by
  rw [Format_slice cfg Fprintf f verb xs hxs]
  simp [elementCalls_append, elementCalls_loopCalls, elementCalls_fmtEnd, Config.fmtPrefix,
    elementCalls_print]

/-- The text of the render of a non-empty slice. -/
theorem output_Format {α : Type} (cfg : Config) (Fprintf : String → α → String)
    (f : State) (verb : Int) (xs : List α) (hxs : xs ≠ []) :
    output ((Fmt (some cfg) (Value.slice xs)).Format Fprintf f verb)
      = renderText cfg Fprintf (fmtFormatString f verb) xs := by
  rw [Format_slice cfg Fprintf f verb xs hxs]
  simp [output_append, output_loopCalls, output_fmtEnd, Config.fmtPrefix, output_print,
    renderText, String.append_assoc]

/-- C1. For a non-nil Config and a slice of length at least 1, with
`(shown, omitted) = lengths(L)`: the text that reaches the sink is exactly
the prefix, then the elements `0 .. shown-1` formatted with the rebuilt format
string and separated by the separator text for `(i-1, shown-2)`, then the end
text (`renderText`); and the `fmt.Fprintf` element calls are exactly those
elements, each once, in index order. -/
theorem Format_writes_renderText {α : Type} (cfg : Config) (Fprintf : String → α → String)
    (f : State) (verb : Int) (xs : List α) (hxs : xs ≠ []) :
    output ((Fmt (some cfg) (Value.slice xs)).Format Fprintf f verb)
        = renderText cfg Fprintf (fmtFormatString f verb) xs
      ∧ elementCalls ((Fmt (some cfg) (Value.slice xs)).Format Fprintf f verb)
        = expectedElements Fprintf (fmtFormatString f verb) 0
            (xs.take (cfg.lengths xs.length).1.toNat) := by
  exact ⟨output_Format cfg Fprintf f verb xs hxs, elementCalls_Format cfg Fprintf f verb xs hxs⟩

/-- C1, at Example_default: prefix `[`, postfix `]`, separator a blank, the
slice `[1, 2, 3]` renders `[1 2 3]`. -/
theorem Format_writes_renderText_witness :
    ([1, 2, 3] : List Int) ≠ [] ∧
    output ((Fmt (some { Empty := "[]", Prefix := "[", Postfix := "]", Sep := " " })
        (Value.slice ([1, 2, 3] : List Int))).Format fprintfInt plainState verbV) = "[1 2 3]" := by
  refine ⟨by decide, ?_⟩
  rw [(Format_writes_renderText { Empty := "[]", Prefix := "[", Postfix := "]", Sep := " " }
    fprintfInt plainState verbV [1, 2, 3] (by decide)).1]
  have hfmt : fmtFormatString plainState verbV = "%v" := by decide
  rw [hfmt]
  simp [renderText, Config.lengths, elementsText, sepText, endText, fprintfInt, AppendInt,
    formatNat, digitChar]

/-! ## Slices of length 0 -/

theorem fmtEmpty_eq_print (cfg : Config) (isNil : Bool) :
    cfg.fmtEmpty isNil = print Site.fmtEmpty (placeholder cfg isNil) := by
  unfold Config.fmtEmpty placeholder
  by_cases h : cfg.Empty = "" <;> simp [h]

theorem mem_print (site : Site) (s : String) (c : Call) (h : c ∈ print site s) :
    c = Call.write site s := by
  unfold print at h
  split at h
  · simpa using h
  · simp at h

theorem length_print_le (site : Site) (s : String) : (print site s).length ≤ 1 := by
  unfold print; split <;> simp

/-- The render of a value of slice kind and length 0 is `fmtEmpty`. -/
theorem Format_empty {α : Type} (cfg : Config) (Fprintf : String → α → String)
    (f : State) (verb : Int) (v : Value α) (hk : v.Kind = Kind.Slice) (hl : v.Len = 0) :
    (Fmt (some cfg) v).Format Fprintf f verb = cfg.fmtEmpty v.IsNil := by
  have hv : v.IsValid = true := by
    cases v <;> simp [Value.IsValid, Value.Kind] at hk ⊢
  simp [Fmt, pair.Format, hk, hl, hv]

/-- C2. For a non-nil Config and a slice value of length 0 (nil or not),
the render is the single `print` of the placeholder at `fmtEmpty`: `Empty`
when it is not the empty string, otherwise `Nil` for a nil slice and `Len0`
for a non-nil one. The text in the sink is that placeholder; there is at
most one call, every call is that write, so nothing is written for Prefix,
Postfix, Sep or Summary, and neither SepFunc nor SummaryFunc nor the element
formatter is invoked. -/
theorem Format_empty_placeholder {α : Type} (cfg : Config) (Fprintf : String → α → String)
    (f : State) (verb : Int) (v : Value α) (hk : v.Kind = Kind.Slice) (hl : v.Len = 0) :
    (Fmt (some cfg) v).Format Fprintf f verb = print Site.fmtEmpty (placeholder cfg v.IsNil)
      ∧ output ((Fmt (some cfg) v).Format Fprintf f verb) = placeholder cfg v.IsNil
      ∧ ((Fmt (some cfg) v).Format Fprintf f verb).length ≤ 1
      ∧ (∀ c ∈ (Fmt (some cfg) v).Format Fprintf f verb,
          c = Call.write Site.fmtEmpty (placeholder cfg v.IsNil))
      ∧ writesAt Site.fmtPrefix ((Fmt (some cfg) v).Format Fprintf f verb) = []
      ∧ writesAt Site.fmtPostfix ((Fmt (some cfg) v).Format Fprintf f verb) = []
      ∧ writesAt Site.fmtSep ((Fmt (some cfg) v).Format Fprintf f verb) = []
      ∧ writesAt Site.fmtSummary ((Fmt (some cfg) v).Format Fprintf f verb) = []
      ∧ sepFuncCalls ((Fmt (some cfg) v).Format Fprintf f verb) = []
      ∧ summaryFuncCalls ((Fmt (some cfg) v).Format Fprintf f verb) = []
      ∧ elementCalls ((Fmt (some cfg) v).Format Fprintf f verb) = [] := by
  rw [Format_empty cfg Fprintf f verb v hk hl, fmtEmpty_eq_print]
  refine ⟨rfl, output_print _ _, length_print_le _ _, mem_print _ _, ?_, ?_, ?_, ?_,
    sepFuncCalls_print _ _, summaryFuncCalls_print _ _, elementCalls_print _ _⟩
  · exact writesAt_print_ne _ _ _ (by decide)
  · exact writesAt_print_ne _ _ _ (by decide)
  · exact writesAt_print_ne _ _ _ (by decide)
  · exact writesAt_print_ne _ _ _ (by decide)

/-- C2, at Example_default and Example_simple: with Empty `[]` both a nil
slice and an empty non-nil slice render `[]`; with Nil `<nil>`, Len0 `<none>`
and Empty unset they render `<nil>` and `<none>`. -/
theorem Format_empty_placeholder_witness :
    output ((Fmt (some { Empty := "[]", Prefix := "[", Postfix := "]", Sep := " " })
        (Value.nilSlice : Value Int)).Format fprintfInt plainState verbV) = "[]"
    ∧ output ((Fmt (some { Empty := "[]", Prefix := "[", Postfix := "]", Sep := " " })
        (Value.slice ([] : List Int))).Format fprintfInt plainState verbV) = "[]"
    ∧ output ((Fmt (some { Nil := "<nil>", Len0 := "<none>", Sep := " ~ " })
        (Value.nilSlice : Value Int)).Format fprintfInt plainState verbV) = "<nil>"
    ∧ output ((Fmt (some { Nil := "<nil>", Len0 := "<none>", Sep := " ~ " })
        (Value.slice ([] : List Int))).Format fprintfInt plainState verbQ) = "<none>" := by
  refine ⟨?_, ?_, ?_, ?_⟩
  · rw [(Format_empty_placeholder _ fprintfInt plainState verbV Value.nilSlice rfl rfl).2.1]
    decide
  · rw [(Format_empty_placeholder _ fprintfInt plainState verbV (Value.slice []) rfl rfl).2.1]
    decide
  · rw [(Format_empty_placeholder _ fprintfInt plainState verbV Value.nilSlice rfl rfl).2.1]
    decide
  · rw [(Format_empty_placeholder _ fprintfInt plainState verbQ (Value.slice []) rfl rfl).2.1]
    decide

/-! ## The two diagnostics -/

/-- C5. With a nil `*Config`, whatever was passed to `Fmt` (invalid, nil
slice, slice, or a value of another kind), the render is the single write of
the literal `%!(slice formatter given nil *Config)`, which is then the whole
text in the sink; the value is not examined and no Config exists to consult. -/
theorem Format_nil_Config {α : Type} (Fprintf : String → α → String)
    (f : State) (verb : Int) (v : Value α) :
    (Fmt none v).Format Fprintf f verb
        = [Call.write Site.nilConfig "%!(slice formatter given nil *Config)"]
      ∧ output ((Fmt none v).Format Fprintf f verb)
        = "%!(slice formatter given nil *Config)" := by
  constructor
  · rfl
  · simp [Fmt, pair.Format, output, Call.text]

/-- C5, at Example_bad: `badConfig.Fmt(nil)` prints the nil-`*Config`
diagnostic, not the non-slice one. -/
theorem Format_nil_Config_witness :
    output ((Fmt none (Value.invalid : Value Int)).Format fprintfInt plainState verbV)
        = "%!(slice formatter given nil *Config)"
      ∧ output ((Fmt none (Value.invalid : Value Int)).Format fprintfInt plainState verbV)
        ≠ "%!(slice formatter only formats slices)" := by
  have h := (Format_nil_Config fprintfInt plainState verbV (Value.invalid : Value Int)).2
  refine ⟨h, ?_⟩
  rw [h]
  decide

theorem writesAt_fmtSep_ne (cfg : Config) (site : Site) (n last : Int)
    (h : Site.fmtSep ≠ site) : writesAt site (cfg.fmtSep n last) = [] := by
  unfold Config.fmtSep
  cases cfg.SepFunc with
  | none => exact writesAt_print_ne _ _ _ h
  | some sf => simp [writesAt]

theorem writesAt_loopCalls_ne {α : Type} (cfg : Config) (Fprintf : String → α → String)
    (format : String) (last : Int) (site : Site) (h : Site.fmtSep ≠ site) (xs : List α) :
    ∀ i : Nat, writesAt site (loopCalls cfg Fprintf format last i xs) = [] := by
  induction xs with
  | nil => intro i; simp [loopCalls, writesAt]
  | cons x rest ih =>
    intro i
    have hcons : ∀ (c : Call) (t : List Call), writesAt site (c :: t)
        = writesAt site [c] ++ writesAt site t := by
      intro c t; exact writesAt_append site [c] t
    simp only [loopCalls, writesAt_append]
    rw [hcons, ih]
    by_cases h0 : i = 0
    · simp [h0, writesAt]
    · rw [if_neg h0, writesAt_fmtSep_ne cfg site _ _ h]
      simp [writesAt]

theorem writesAt_fmtEnd_ne (cfg : Config) (site : Site) (n : Int)
    (h1 : Site.fmtPostfix ≠ site) (h2 : Site.fmtSummary ≠ site) :
    writesAt site (cfg.fmtEnd n) = [] := by
  unfold Config.fmtEnd
  split
  · exact writesAt_print_ne _ _ _ h1
  · cases cfg.SummaryFunc with
    | none => exact writesAt_print_ne _ _ _ h2
    | some g => simp [writesAt]

/-- A render of a non-empty slice never issues the non-slice diagnostic. -/
theorem writesAt_notSlice_slice {α : Type} (cfg : Config) (Fprintf : String → α → String)
    (f : State) (verb : Int) (xs : List α) (hxs : xs ≠ []) :
    writesAt Site.notSlice ((Fmt (some cfg) (Value.slice xs)).Format Fprintf f verb) = [] := by
  rw [Format_slice cfg Fprintf f verb xs hxs]
  simp only [writesAt_append, Config.fmtPrefix]
  rw [writesAt_print_ne _ _ _ (by decide), writesAt_loopCalls_ne _ _ _ _ _ (by decide),
    writesAt_fmtEnd_ne _ _ _ (by decide) (by decide)]
  rfl

/-- The render of any value of slice kind never issues the non-slice diagnostic. -/
theorem writesAt_notSlice_of_Slice {α : Type} (cfg : Config) (Fprintf : String → α → String)
    (f : State) (verb : Int) (v : Value α) (hk : v.Kind = Kind.Slice) :
    writesAt Site.notSlice ((Fmt (some cfg) v).Format Fprintf f verb) = [] := by
  by_cases hl : v.Len = 0
  · rw [Format_empty cfg Fprintf f verb v hk hl, fmtEmpty_eq_print]
    exact writesAt_print_ne _ _ _ (by decide)
  · cases v with
    | invalid => simp [Value.Kind] at hk
    | nilSlice => simp [Value.Len, Value.elems] at hl
    | other k => simp [Value.Kind] at hk
    | slice xs =>
      have hxs : xs ≠ [] := by
        intro h; subst h; simp [Value.Len, Value.elems] at hl
      exact writesAt_notSlice_slice cfg Fprintf f verb xs hxs

/-- The render of a value that is not of slice kind. -/
theorem Format_not_Slice {α : Type} (cfg : Config) (Fprintf : String → α → String)
    (f : State) (verb : Int) (v : Value α) (hk : v.Kind ≠ Kind.Slice) :
    (Fmt (some cfg) v).Format Fprintf f verb
      = [Call.write Site.notSlice "%!(slice formatter only formats slices)"] := by
  simp [Fmt, pair.Format, hk]

/-- The text of the render of any value of slice kind is `sliceText`. -/
theorem output_Format_of_Slice {α : Type} (cfg : Config) (Fprintf : String → α → String)
    (f : State) (verb : Int) (v : Value α) (hk : v.Kind = Kind.Slice) :
    output ((Fmt (some cfg) v).Format Fprintf f verb)
      = sliceText cfg Fprintf (fmtFormatString f verb) v := by
  unfold sliceText
  by_cases hl : v.Len = 0
  · rw [if_pos hl, Format_empty cfg Fprintf f verb v hk hl, fmtEmpty_eq_print, output_print]
  · rw [if_neg hl]
    cases v with
    | invalid => simp [Value.Kind] at hk
    | nilSlice => simp [Value.Len, Value.elems] at hl
    | other k => simp [Value.Kind] at hk
    | slice xs =>
      have hxs : xs ≠ [] := by
        intro h; subst h; simp [Value.Len, Value.elems] at hl
      exact output_Format cfg Fprintf f verb xs hxs

/-- C6, where the claim fails. A Config whose Empty spells the non-slice
diagnostic, given a typed nil slice (a value of slice kind): the render is a
single write, by `fmtEmpty`, of exactly the literal
`%!(slice formatter only formats slices)`, so "writes exactly the literal and
nothing else" holds of a value that is of slice kind. -/
theorem Empty_can_spell_the_diagnostic :
    (Value.nilSlice : Value Int).Kind = Kind.Slice
    ∧ (Fmt (some spellsDiagnostic) (Value.nilSlice : Value Int)).Format
        fprintfInt plainState verbV
      = [Call.write Site.fmtEmpty "%!(slice formatter only formats slices)"]
    ∧ output ((Fmt (some spellsDiagnostic) (Value.nilSlice : Value Int)).Format
        fprintfInt plainState verbV) = "%!(slice formatter only formats slices)"
    ∧ ¬ (output ((Fmt (some spellsDiagnostic) (Value.nilSlice : Value Int)).Format
          fprintfInt plainState verbV) = "%!(slice formatter only formats slices)"
        ↔ (Value.nilSlice : Value Int).Kind ≠ Kind.Slice) := by
  have htr : (Fmt (some spellsDiagnostic) (Value.nilSlice : Value Int)).Format
      fprintfInt plainState verbV
      = [Call.write Site.fmtEmpty "%!(slice formatter only formats slices)"] := by
    rw [Format_empty spellsDiagnostic fprintfInt plainState verbV Value.nilSlice rfl rfl]
    simp [Config.fmtEmpty, print, spellsDiagnostic, Value.IsNil]
  have hout : output ((Fmt (some spellsDiagnostic) (Value.nilSlice : Value Int)).Format
      fprintfInt plainState verbV) = "%!(slice formatter only formats slices)" := by
    rw [htr]
    simp [output, Call.text]
  refine ⟨rfl, htr, hout, ?_⟩
  intro h
  exact (h.mp hout) rfl

/-- C6, amended. With a non-nil Config: when the value is not of slice kind
(the zero Value of an untyped nil, or a value of any other kind) the render
is the single write of the literal `%!(slice formatter only formats slices)`
and that literal is the whole text in the sink; the statement that writes the
diagnostic runs for no other value. A value of slice kind, a typed nil slice
included, is rendered by `fmtEmpty` (length 0) or by the prefix, loop and end
(length at least 1); its text is `sliceText`, so the text in the sink is the
literal exactly when the value is not of slice kind or the Config's own
strings and the elements spell it. -/
theorem Format_notSlice_diagnostic {α : Type} (cfg : Config) (Fprintf : String → α → String)
    (f : State) (verb : Int) (v : Value α) :
    (v.Kind ≠ Kind.Slice →
        (Fmt (some cfg) v).Format Fprintf f verb
            = [Call.write Site.notSlice "%!(slice formatter only formats slices)"]
          ∧ output ((Fmt (some cfg) v).Format Fprintf f verb)
            = "%!(slice formatter only formats slices)")
      ∧ (v.Kind = Kind.Slice →
          writesAt Site.notSlice ((Fmt (some cfg) v).Format Fprintf f verb) = []
            ∧ output ((Fmt (some cfg) v).Format Fprintf f verb)
              = sliceText cfg Fprintf (fmtFormatString f verb) v
            ∧ (v.Len = 0 →
                (Fmt (some cfg) v).Format Fprintf f verb
                  = print Site.fmtEmpty (placeholder cfg v.IsNil)))
      ∧ ((Fmt (some cfg) v).Format Fprintf f verb
            = [Call.write Site.notSlice "%!(slice formatter only formats slices)"]
          ↔ v.Kind ≠ Kind.Slice)
      ∧ (output ((Fmt (some cfg) v).Format Fprintf f verb)
            = "%!(slice formatter only formats slices)"
          ↔ (v.Kind ≠ Kind.Slice
              ∨ sliceText cfg Fprintf (fmtFormatString f verb) v
                = "%!(slice formatter only formats slices)"))
      ∧ (Fmt (some cfg) (Value.nilSlice : Value α)).Format Fprintf f verb
          = print Site.fmtEmpty (placeholder cfg true) := by
  have hnot : v.Kind ≠ Kind.Slice →
      output ((Fmt (some cfg) v).Format Fprintf f verb)
        = "%!(slice formatter only formats slices)" := by
    intro hk
    rw [Format_not_Slice cfg Fprintf f verb v hk]
    simp [output, Call.text]
  refine ⟨fun hk => ⟨Format_not_Slice cfg Fprintf f verb v hk, hnot hk⟩, ?_, ?_, ?_, ?_⟩
  · intro hk
    refine ⟨writesAt_notSlice_of_Slice cfg Fprintf f verb v hk,
      output_Format_of_Slice cfg Fprintf f verb v hk, ?_⟩
    intro hl
    rw [Format_empty cfg Fprintf f verb v hk hl, fmtEmpty_eq_print]
  · refine ⟨?_, Format_not_Slice cfg Fprintf f verb v⟩
    intro h hk
    have := writesAt_notSlice_of_Slice cfg Fprintf f verb v hk
    rw [h] at this
    simp [writesAt] at this
  · constructor
    · intro h
      by_cases hk : v.Kind = Kind.Slice
      · right
        rw [← output_Format_of_Slice cfg Fprintf f verb v hk]
        exact h
      · left; exact hk
    · intro h
      by_cases hk : v.Kind = Kind.Slice
      · rcases h with h | h
        · exact absurd hk h
        · rw [output_Format_of_Slice cfg Fprintf f verb v hk]
          exact h
      · exact hnot hk
  · rw [Format_empty cfg Fprintf f verb Value.nilSlice rfl rfl, fmtEmpty_eq_print]
    rfl

/-- C6 amended, at Example_bad and Example_simple: `goodConfig.Fmt(nil)` and
`goodConfig.Fmt(7)` print the non-slice diagnostic, while a nil `[]float64`
under Nil `<nil>`, Len0 `<none>` prints `<nil>`. -/
theorem Format_notSlice_diagnostic_witness :
    output ((Fmt (some {}) (Value.invalid : Value Int)).Format fprintfInt plainState verbV)
        = "%!(slice formatter only formats slices)"
      ∧ output ((Fmt (some {}) (Value.other OtherKind.Int : Value Int)).Format
          fprintfInt plainState verbV) = "%!(slice formatter only formats slices)"
      ∧ output ((Fmt (some exampleSimple) (Value.nilSlice : Value Int)).Format
          fprintfInt plainState verbV) = "<nil>" := by
  refine ⟨?_, ?_, ?_⟩
  · exact ((Format_notSlice_diagnostic {} fprintfInt plainState verbV Value.invalid).1
      (by decide)).2
  · exact ((Format_notSlice_diagnostic {} fprintfInt plainState verbV
      (Value.other OtherKind.Int)).1 (by decide)).2
  · rw [((Format_notSlice_diagnostic exampleSimple fprintfInt plainState verbV
      (Value.nilSlice : Value Int)).2.1 rfl).2.1]
    decide

/-! ## `lengths` -/

theorem wrapInt_of_inRange (x : Int) (h1 : -2 ^ 63 ≤ x) (h2 : x < 2 ^ 63) : wrapInt x = x := by
  unfold wrapInt
  have h : (x + 2 ^ 63) % 2 ^ 64 = x + 2 ^ 63 :=
    Int.emod_eq_of_lt (by omega) (by omega)
  omega

theorem lengths_of_cut (cfg : Config) (len : Int) (hc : 0 < cfg.CutOff)
    (hlt : cfg.CutOff < len) (hlen : len < 2 ^ 63) :
    cfg.lengths len = (cfg.CutOff, len - cfg.CutOff) := by
  unfold Config.lengths
  have h0 : cfg.CutOff ≠ 0 := by omega
  rw [if_pos ⟨h0, hlt⟩, wrapInt_of_inRange _ (by omega) (by omega)]

theorem lengths_of_zero (cfg : Config) (len : Int) (hc : cfg.CutOff = 0) :
    cfg.lengths len = (len, 0) := by
  unfold Config.lengths
  simp [hc]

theorem lengths_of_le (cfg : Config) (len : Int) (hc : len ≤ cfg.CutOff) :
    cfg.lengths len = (len, 0) := by
  unfold Config.lengths
  have : ¬ (cfg.CutOff ≠ 0 ∧ len > cfg.CutOff) := by omega
  rw [if_neg this]

/-! ## Callback invocations of the pieces -/

theorem sepFuncCalls_fmtSep_some (cfg : Config) (sf : SepFunc) (h : cfg.SepFunc = some sf)
    (n last : Int) : sepFuncCalls (cfg.fmtSep n last) = [(n, last)] := by
  simp [Config.fmtSep, h, sepFuncCalls]

theorem sepFuncCalls_fmtSep_none (cfg : Config) (h : cfg.SepFunc = none)
    (n last : Int) : sepFuncCalls (cfg.fmtSep n last) = [] := by
  simp [Config.fmtSep, h, sepFuncCalls_print]

theorem sepFuncCalls_fmtEnd (cfg : Config) (n : Int) : sepFuncCalls (cfg.fmtEnd n) = [] := by
  unfold Config.fmtEnd
  split
  · exact sepFuncCalls_print _ _
  · cases cfg.SummaryFunc with
    | none => simp [sepFuncCalls_print]
    | some g => simp [sepFuncCalls]

theorem summaryFuncCalls_fmtSep (cfg : Config) (n last : Int) :
    summaryFuncCalls (cfg.fmtSep n last) = [] := by
  unfold Config.fmtSep
  cases cfg.SepFunc with
  | none => simp [summaryFuncCalls_print]
  | some sf => simp [summaryFuncCalls]

theorem summaryFuncCalls_fmtEnd_zero (cfg : Config) :
    summaryFuncCalls (cfg.fmtEnd 0) = [] := by
  simp [Config.fmtEnd, summaryFuncCalls_print]

theorem summaryFuncCalls_fmtEnd_some (cfg : Config) (g : SummaryFunc)
    (h : cfg.SummaryFunc = some g) (n : Int) (hn : n ≠ 0) :
    summaryFuncCalls (cfg.fmtEnd n) = [n] := by
  simp [Config.fmtEnd, h, hn, summaryFuncCalls]

theorem summaryFuncCalls_fmtEnd_none (cfg : Config) (h : cfg.SummaryFunc = none) (n : Int) :
    summaryFuncCalls (cfg.fmtEnd n) = [] := by
  unfold Config.fmtEnd
  split
  · exact summaryFuncCalls_print _ _
  · simp [h, summaryFuncCalls_print]

theorem summaryFuncCalls_loopCalls {α : Type} (cfg : Config) (Fprintf : String → α → String)
    (format : String) (last : Int) (xs : List α) :
    ∀ i : Nat, summaryFuncCalls (loopCalls cfg Fprintf format last i xs) = [] := by
  induction xs with
  | nil => intro i; simp [loopCalls, summaryFuncCalls]
  | cons x rest ih =>
    intro i
    have hcons : ∀ (c : Call) (t : List Call), summaryFuncCalls (c :: t)
        = summaryFuncCalls [c] ++ summaryFuncCalls t := by
      intro c t; exact summaryFuncCalls_append [c] t
    simp only [loopCalls, summaryFuncCalls_append]
    rw [hcons, ih]
    by_cases h0 : i = 0
    · simp [h0, summaryFuncCalls]
    · rw [if_neg h0, summaryFuncCalls_fmtSep]
      simp [summaryFuncCalls]

theorem sepFuncCalls_cons_element (format : String) (i : Int) (out : String) (t : List Call) :
    sepFuncCalls (Call.element format i out :: t) = sepFuncCalls t := by
  simp [sepFuncCalls]

/-- With a `SepFunc`, the loop from index `k + 1` on invokes it once per
element, for the gaps `k, k + 1, ...`. -/
theorem sepFuncCalls_loopCalls_succ {α : Type} (cfg : Config) (sf : SepFunc)
    (h : cfg.SepFunc = some sf) (Fprintf : String → α → String)
    (format : String) (last : Int) (xs : List α) :
    ∀ k : Nat, sepFuncCalls (loopCalls cfg Fprintf format last (k + 1) xs)
      = (List.range' k xs.length).map (fun (n : Nat) => ((n : Int), last)) := by
  induction xs with
  | nil => intro k; simp [loopCalls, sepFuncCalls]
  | cons x rest ih =>
    intro k
    simp only [loopCalls, sepFuncCalls_append, sepFuncCalls_cons_element, ih]
    rw [if_neg (Nat.succ_ne_zero k), sepFuncCalls_fmtSep_some cfg sf h]
    simp [List.range'_succ]

/-- With a `SepFunc`, the whole loop invokes it for the gaps
`0 .. length - 2`, always with the same `last`. -/
theorem sepFuncCalls_loopCalls_zero {α : Type} (cfg : Config) (sf : SepFunc)
    (h : cfg.SepFunc = some sf) (Fprintf : String → α → String)
    (format : String) (last : Int) (xs : List α) :
    sepFuncCalls (loopCalls cfg Fprintf format last 0 xs)
      = (List.range (xs.length - 1)).map (fun (n : Nat) => ((n : Int), last)) := by
  cases xs with
  | nil => simp [loopCalls, sepFuncCalls]
  | cons x rest =>
    simp only [loopCalls, sepFuncCalls_append, sepFuncCalls_cons_element]
    rw [sepFuncCalls_loopCalls_succ cfg sf h]
    simp [sepFuncCalls, List.range_eq_range']

/-- Without a `SepFunc` the loop invokes none. -/
theorem sepFuncCalls_loopCalls_none {α : Type} (cfg : Config)
    (h : cfg.SepFunc = none) (Fprintf : String → α → String)
    (format : String) (last : Int) (xs : List α) :
    ∀ i : Nat, sepFuncCalls (loopCalls cfg Fprintf format last i xs) = [] := by
  induction xs with
  | nil => intro i; simp [loopCalls, sepFuncCalls]
  | cons x rest ih =>
    intro i
    simp only [loopCalls, sepFuncCalls_append, sepFuncCalls_cons_element, ih]
    by_cases h0 : i = 0
    · simp [h0, sepFuncCalls]
    · rw [if_neg h0, sepFuncCalls_fmtSep_none cfg h]
      rfl

/-- Every `SepFunc` invocation of the loop receives the loop's `last`. -/
theorem sepFuncCalls_loopCalls_last {α : Type} (cfg : Config) (Fprintf : String → α → String)
    (format : String) (last : Int) (xs : List α) (i : Nat) :
    ∀ p ∈ sepFuncCalls (loopCalls cfg Fprintf format last i xs), p.2 = last := by
  cases hs : cfg.SepFunc with
  | none => rw [sepFuncCalls_loopCalls_none cfg hs]; simp
  | some sf =>
    cases i with
    | zero =>
      rw [sepFuncCalls_loopCalls_zero cfg sf hs]
      intro p hp
      simp only [List.mem_map] at hp
      obtain ⟨n, _, rfl⟩ := hp
      rfl
    | succ k =>
      rw [sepFuncCalls_loopCalls_succ cfg sf hs]
      intro p hp
      simp only [List.mem_map] at hp
      obtain ⟨n, _, rfl⟩ := hp
      rfl

/-- The `SepFunc` invocations of the render of a non-empty slice are those of its loop. -/
theorem sepFuncCalls_Format {α : Type} (cfg : Config) (Fprintf : String → α → String)
    (f : State) (verb : Int) (xs : List α) (hxs : xs ≠ []) :
    sepFuncCalls ((Fmt (some cfg) (Value.slice xs)).Format Fprintf f verb)
      = sepFuncCalls (loopCalls cfg Fprintf (fmtFormatString f verb)
          ((cfg.lengths xs.length).1 - 2) 0 (xs.take (cfg.lengths xs.length).1.toNat)) := by
  rw [Format_slice cfg Fprintf f verb xs hxs]
  simp [sepFuncCalls_append, sepFuncCalls_fmtEnd, Config.fmtPrefix, sepFuncCalls_print]

/-- The `SummaryFunc` invocations of the render of a non-empty slice are those of `fmtEnd`. -/
theorem summaryFuncCalls_Format {α : Type} (cfg : Config) (Fprintf : String → α → String)
    (f : State) (verb : Int) (xs : List α) (hxs : xs ≠ []) :
    summaryFuncCalls ((Fmt (some cfg) (Value.slice xs)).Format Fprintf f verb)
      = summaryFuncCalls (cfg.fmtEnd (cfg.lengths xs.length).2) := by
  rw [Format_slice cfg Fprintf f verb xs hxs]
  simp [summaryFuncCalls_append, summaryFuncCalls_loopCalls, Config.fmtPrefix,
    summaryFuncCalls_print]

/-- The number of elements a render of a non-empty slice formats. -/
theorem elementCalls_Format_length {α : Type} (cfg : Config) (Fprintf : String → α → String)
    (f : State) (verb : Int) (xs : List α) (hxs : xs ≠ []) :
    (elementCalls ((Fmt (some cfg) (Value.slice xs)).Format Fprintf f verb)).length
      = (cfg.lengths xs.length).1.toNat := by
  rw [elementCalls_Format cfg Fprintf f verb xs hxs, expectedElements_length, List.length_take]
  have := lengths_fst_le cfg xs.length
  omega

/-! ## Renders with and without a cut off -/

theorem writesAt_fmtEnd_Postfix_of_ne (cfg : Config) (n : Int) (hn : n ≠ 0) :
    writesAt Site.fmtPostfix (cfg.fmtEnd n) = [] := by
  unfold Config.fmtEnd
  rw [if_neg hn]
  cases cfg.SummaryFunc with
  | none => exact writesAt_print_ne _ _ _ (by decide)
  | some g => simp [writesAt]

theorem writesAt_fmtEnd_Summary_zero (cfg : Config) :
    writesAt Site.fmtSummary (cfg.fmtEnd 0) = [] := by
  unfold Config.fmtEnd
  rw [if_pos rfl]
  exact writesAt_print_ne _ _ _ (by decide)

/-- The writes at a site other than `fmtSep` in the render of a non-empty
slice are those of the prefix and of the end. -/
theorem writesAt_Format_ne {α : Type} (cfg : Config) (Fprintf : String → α → String)
    (f : State) (verb : Int) (xs : List α) (hxs : xs ≠ []) (site : Site)
    (h : Site.fmtSep ≠ site) :
    writesAt site ((Fmt (some cfg) (Value.slice xs)).Format Fprintf f verb)
      = writesAt site cfg.fmtPrefix ++ writesAt site (cfg.fmtEnd (cfg.lengths xs.length).2) := by
  rw [Format_slice cfg Fprintf f verb xs hxs]
  simp [writesAt_append, writesAt_loopCalls_ne _ _ _ _ _ h]

/-- C3. For a Config with `CutOff > 0` and a slice of length `L > CutOff`
(`L` a 64-bit int): exactly the elements `0 .. CutOff-1` are formatted, so
`CutOff` of them; `lengths` returns `(CutOff, L - CutOff)` and the render ends
with `fmtEnd (L - CutOff)`, so that a `SummaryFunc`, when set, is called once
with `n = L - CutOff`; `Postfix` is not written; every `SepFunc` invocation
receives `last = CutOff - 2`; and the text is the prefix, those elements with
their separators, and the end text for `L - CutOff`. -/
theorem Format_cut {α : Type} (cfg : Config) (Fprintf : String → α → String)
    (f : State) (verb : Int) (xs : List α)
    (hc : 0 < cfg.CutOff) (hlt : cfg.CutOff < xs.length) (hlen : (xs.length : Int) < 2 ^ 63) :
    elementCalls ((Fmt (some cfg) (Value.slice xs)).Format Fprintf f verb)
        = expectedElements Fprintf (fmtFormatString f verb) 0 (xs.take cfg.CutOff.toNat)
      ∧ ((elementCalls ((Fmt (some cfg) (Value.slice xs)).Format Fprintf f verb)).length : Int)
        = cfg.CutOff
      ∧ cfg.lengths xs.length = (cfg.CutOff, (xs.length : Int) - cfg.CutOff)
      ∧ cfg.fmtEnd ((xs.length : Int) - cfg.CutOff)
        <:+ (Fmt (some cfg) (Value.slice xs)).Format Fprintf f verb
      ∧ (∀ g, cfg.SummaryFunc = some g →
          summaryFuncCalls ((Fmt (some cfg) (Value.slice xs)).Format Fprintf f verb)
            = [(xs.length : Int) - cfg.CutOff])
      ∧ writesAt Site.fmtPostfix ((Fmt (some cfg) (Value.slice xs)).Format Fprintf f verb) = []
      ∧ (∀ p ∈ sepFuncCalls ((Fmt (some cfg) (Value.slice xs)).Format Fprintf f verb),
          p.2 = cfg.CutOff - 2)
      ∧ output ((Fmt (some cfg) (Value.slice xs)).Format Fprintf f verb)
        = cfg.Prefix
          ++ elementsText cfg Fprintf (fmtFormatString f verb) (cfg.CutOff - 2) 0
              (xs.take cfg.CutOff.toNat)
          ++ endText cfg ((xs.length : Int) - cfg.CutOff) := by
  have hxs : xs ≠ [] := by
    intro h; subst h; simp at hlt; omega
  have hL := lengths_of_cut cfg xs.length hc hlt hlen
  have hne : (xs.length : Int) - cfg.CutOff ≠ 0 := by omega
  refine ⟨?_, ?_, hL, ?_, ?_, ?_, ?_, ?_⟩
  · rw [elementCalls_Format cfg Fprintf f verb xs hxs, hL]
  · rw [elementCalls_Format_length cfg Fprintf f verb xs hxs, hL]
    simp only
    omega
  · rw [Format_slice cfg Fprintf f verb xs hxs, hL]
    exact List.suffix_append _ _
  · intro g hg
    rw [summaryFuncCalls_Format cfg Fprintf f verb xs hxs, hL]
    exact summaryFuncCalls_fmtEnd_some cfg g hg _ hne
  · rw [writesAt_Format_ne cfg Fprintf f verb xs hxs _ (by decide), hL]
    simp only [Config.fmtPrefix]
    rw [writesAt_print_ne _ _ _ (by decide), writesAt_fmtEnd_Postfix_of_ne cfg _ hne]
    rfl
  · rw [sepFuncCalls_Format cfg Fprintf f verb xs hxs, hL]
    exact sepFuncCalls_loopCalls_last cfg Fprintf _ _ _ 0
  · rw [output_Format cfg Fprintf f verb xs hxs]
    simp only [renderText, hL]

/-- C3, at Example_complex: CutOff 3 with the `, ` / ` and ` SepFunc and the
`(and n more)` SummaryFunc over the five strings a..e under `%q` calls
SummaryFunc once with 2 and renders `"a", "b" and "c" (and 2 more)`. -/
theorem Format_cut_witness :
    summaryFuncCalls ((Fmt (some exampleComplex)
        (Value.slice ["a", "b", "c", "d", "e"])).Format fprintfString plainState verbQ) = [2]
    ∧ output ((Fmt (some exampleComplex)
        (Value.slice ["a", "b", "c", "d", "e"])).Format fprintfString plainState verbQ)
      = "\"a\", \"b\" and \"c\" (and 2 more)" := by
  have h := Format_cut exampleComplex fprintfString plainState verbQ ["a", "b", "c", "d", "e"]
    (by decide) (by decide) (by norm_num)
  refine ⟨?_, ?_⟩
  · rw [h.2.2.2.2.1 andMore rfl]
    decide
  · rw [h.2.2.2.2.2.2.2]
    have hfmt : fmtFormatString plainState verbQ = "%q" := by decide
    rw [hfmt]
    simp [elementsText, sepText, endText, fprintfString, AppendInt, formatNat, digitChar,
      commaAnd, andMore, exampleComplex]

/-- C4. For a Config with `CutOff == 0` and a non-empty slice of length `L`:
all the elements are formatted, in order, so `L` of them; SummaryFunc is not
invoked and Summary is not written; the render ends with the `print` of
Postfix and the text in the sink ends with Postfix. -/
theorem Format_no_CutOff {α : Type} (cfg : Config) (Fprintf : String → α → String)
    (f : State) (verb : Int) (xs : List α) (hc : cfg.CutOff = 0) (hxs : xs ≠ []) :
    elementCalls ((Fmt (some cfg) (Value.slice xs)).Format Fprintf f verb)
        = expectedElements Fprintf (fmtFormatString f verb) 0 xs
      ∧ (elementCalls ((Fmt (some cfg) (Value.slice xs)).Format Fprintf f verb)).length
        = xs.length
      ∧ summaryFuncCalls ((Fmt (some cfg) (Value.slice xs)).Format Fprintf f verb) = []
      ∧ writesAt Site.fmtSummary ((Fmt (some cfg) (Value.slice xs)).Format Fprintf f verb) = []
      ∧ print Site.fmtPostfix cfg.Postfix
        <:+ (Fmt (some cfg) (Value.slice xs)).Format Fprintf f verb
      ∧ ∃ t, output ((Fmt (some cfg) (Value.slice xs)).Format Fprintf f verb)
          = t ++ cfg.Postfix := by
  have hL := lengths_of_zero cfg xs.length hc
  have htake : xs.take ((xs.length : Int)).toNat = xs := by simp
  refine ⟨?_, ?_, ?_, ?_, ?_, ?_⟩
  · rw [elementCalls_Format cfg Fprintf f verb xs hxs, hL]
    simp only [htake]
  · rw [elementCalls_Format_length cfg Fprintf f verb xs hxs, hL]
    simp
  · rw [summaryFuncCalls_Format cfg Fprintf f verb xs hxs, hL]
    exact summaryFuncCalls_fmtEnd_zero cfg
  · rw [writesAt_Format_ne cfg Fprintf f verb xs hxs _ (by decide), hL]
    simp only [Config.fmtPrefix]
    rw [writesAt_print_ne _ _ _ (by decide), writesAt_fmtEnd_Summary_zero cfg]
    rfl
  · rw [Format_slice cfg Fprintf f verb xs hxs, hL]
    have : cfg.fmtEnd 0 = print Site.fmtPostfix cfg.Postfix := by simp [Config.fmtEnd]
    simp only [this]
    exact List.suffix_append _ _
  · refine ⟨cfg.Prefix ++ elementsText cfg Fprintf (fmtFormatString f verb)
      ((xs.length : Int) - 2) 0 xs, ?_⟩
    rw [output_Format cfg Fprintf f verb xs hxs]
    simp only [renderText, hL, htake, endText, if_true]

/-- C4, at Example_default: `[1, 2, 3]` without a cut off formats three
elements, never calls SummaryFunc and ends with the write of `]`. -/
theorem Format_no_CutOff_witness :
    (elementCalls ((Fmt (some { Empty := "[]", Prefix := "[", Postfix := "]", Sep := " " })
        (Value.slice ([1, 2, 3] : List Int))).Format fprintfInt plainState verbV)).length = 3
    ∧ summaryFuncCalls ((Fmt (some { Empty := "[]", Prefix := "[", Postfix := "]", Sep := " " })
        (Value.slice ([1, 2, 3] : List Int))).Format fprintfInt plainState verbV) = []
    ∧ [Call.write Site.fmtPostfix "]"]
        <:+ (Fmt (some { Empty := "[]", Prefix := "[", Postfix := "]", Sep := " " })
          (Value.slice ([1, 2, 3] : List Int))).Format fprintfInt plainState verbV := by
  have h := Format_no_CutOff { Empty := "[]", Prefix := "[", Postfix := "]", Sep := " " }
    fprintfInt plainState verbV [1, 2, 3] rfl (by decide)
  exact ⟨h.2.1, h.2.2.1, h.2.2.2.2.1⟩

/-! ## Separator invocations -/

/-- C7. For a Config with a SepFunc and a non-empty slice, with `shown` the
number of elements the render formats: the SepFunc invocations are exactly
`(0, shown-2), (1, shown-2), ..., (shown-2, shown-2)`, in that order; hence
every invocation has `0 ≤ n ≤ last`, and `n = last` exactly at the gap
`shown - 2`, the final one. -/
theorem SepFunc_invocations {α : Type} (cfg : Config) (sf : SepFunc)
    (Fprintf : String → α → String) (f : State) (verb : Int) (xs : List α)
    (hs : cfg.SepFunc = some sf) (hxs : xs ≠ []) :
    sepFuncCalls ((Fmt (some cfg) (Value.slice xs)).Format Fprintf f verb)
        = (List.range
            ((elementCalls ((Fmt (some cfg) (Value.slice xs)).Format Fprintf f verb)).length
              - 1)).map
          (fun (n : Nat) => ((n : Int),
            ((elementCalls ((Fmt (some cfg) (Value.slice xs)).Format Fprintf f verb)).length
              : Int) - 2))
      ∧ (∀ p ∈ sepFuncCalls ((Fmt (some cfg) (Value.slice xs)).Format Fprintf f verb),
          0 ≤ p.1 ∧ p.1 ≤ p.2)
      ∧ (∀ p ∈ sepFuncCalls ((Fmt (some cfg) (Value.slice xs)).Format Fprintf f verb),
          (p.1 = p.2 ↔
            p.1 = ((elementCalls
              ((Fmt (some cfg) (Value.slice xs)).Format Fprintf f verb)).length : Int) - 2)) := by
  have hlist : sepFuncCalls ((Fmt (some cfg) (Value.slice xs)).Format Fprintf f verb)
        = (List.range
            ((elementCalls ((Fmt (some cfg) (Value.slice xs)).Format Fprintf f verb)).length
              - 1)).map
          (fun (n : Nat) => ((n : Int),
            ((elementCalls ((Fmt (some cfg) (Value.slice xs)).Format Fprintf f verb)).length
              : Int) - 2)) := by
    rw [sepFuncCalls_Format cfg Fprintf f verb xs hxs,
      elementCalls_Format_length cfg Fprintf f verb xs hxs,
      sepFuncCalls_loopCalls_zero cfg sf hs, List.length_take]
    have hle := lengths_fst_le cfg xs.length
    have hmin : min (cfg.lengths xs.length).1.toNat xs.length
        = (cfg.lengths xs.length).1.toNat := by
      omega
    rw [hmin]
    by_cases hN : 0 ≤ (cfg.lengths xs.length).1
    · rw [Int.toNat_of_nonneg hN]
    · have h0 : (cfg.lengths xs.length).1.toNat = 0 := by omega
      simp [h0]
  refine ⟨hlist, ?_, ?_⟩
  · intro p hp
    rw [hlist] at hp
    simp only [List.mem_map, List.mem_range] at hp
    obtain ⟨n, hn, rfl⟩ := hp
    simp only
    omega
  · intro p hp
    rw [hlist] at hp
    simp only [List.mem_map, List.mem_range] at hp
    obtain ⟨n, hn, rfl⟩ := hp
    simp only

/-- C7, at Example_commas: the `, ` / ` and ` SepFunc over `[0, 1, 2, 3]` is
invoked for `(0, 2), (1, 2), (2, 2)` and the render is `0, 1, 2 and 3`. -/
theorem SepFunc_invocations_witness :
    sepFuncCalls ((Fmt (some notOxford) (Value.slice ([0, 1, 2, 3] : List Int))).Format
        fprintfInt plainState verbV) = [(0, 2), (1, 2), (2, 2)]
    ∧ output ((Fmt (some notOxford) (Value.slice ([0, 1, 2, 3] : List Int))).Format
        fprintfInt plainState verbV) = "0, 1, 2 and 3" := by
  have h := (SepFunc_invocations notOxford commaAnd fprintfInt plainState verbV
    ([0, 1, 2, 3] : List Int) rfl (by decide)).1
  have hlen := elementCalls_Format_length notOxford fprintfInt plainState verbV
    ([0, 1, 2, 3] : List Int) (by decide)
  refine ⟨?_, ?_⟩
  · rw [h, hlen]
    simp [notOxford, Config.lengths]
    decide
  · rw [output_Format notOxford fprintfInt plainState verbV _ (by decide)]
    have hfmt : fmtFormatString plainState verbV = "%v" := by decide
    rw [hfmt]
    simp [renderText, Config.lengths, elementsText, sepText, endText, fprintfInt, AppendInt,
      formatNat, digitChar, notOxford, commaAnd]

/-! ## SummaryFunc invocations -/

/-- The render of a slice of length 0 invokes no SummaryFunc. -/
theorem summaryFuncCalls_Format_empty {α : Type} (cfg : Config)
    (Fprintf : String → α → String) (f : State) (verb : Int) (v : Value α)
    (hk : v.Kind = Kind.Slice) (hl : v.Len = 0) :
    summaryFuncCalls ((Fmt (some cfg) v).Format Fprintf f verb) = [] := by
  rw [Format_empty cfg Fprintf f verb v hk hl, fmtEmpty_eq_print]
  exact summaryFuncCalls_print _ _

/-- With a SummaryFunc and `CutOff ≥ 0`, for a non-empty slice of length `L`
(a 64-bit int): SummaryFunc is invoked exactly when `L > CutOff > 0`, once,
with `n = L - CutOff`, which is positive and is the number of elements of the
slice that were not formatted. -/
theorem summaryFuncCalls_of_nonneg_CutOff {α : Type} (cfg : Config) (g : SummaryFunc)
    (Fprintf : String → α → String) (f : State) (verb : Int) (xs : List α)
    (hg : cfg.SummaryFunc = some g) (hc : 0 ≤ cfg.CutOff) (hxs : xs ≠ [])
    (hlen : (xs.length : Int) < 2 ^ 63) :
    summaryFuncCalls ((Fmt (some cfg) (Value.slice xs)).Format Fprintf f verb)
        = (if 0 < cfg.CutOff ∧ cfg.CutOff < xs.length
            then [(xs.length : Int) - cfg.CutOff] else [])
      ∧ ∀ n ∈ summaryFuncCalls ((Fmt (some cfg) (Value.slice xs)).Format Fprintf f verb),
          0 < n ∧ n = (xs.length : Int)
            - (elementCalls ((Fmt (some cfg) (Value.slice xs)).Format Fprintf f verb)).length := by
  have hcalls := summaryFuncCalls_Format cfg Fprintf f verb xs hxs
  have hshown := elementCalls_Format_length cfg Fprintf f verb xs hxs
  by_cases hcut : 0 < cfg.CutOff ∧ cfg.CutOff < xs.length
  · have hL := lengths_of_cut cfg xs.length hcut.1 hcut.2 hlen
    rw [hL] at hcalls hshown
    rw [hcalls, summaryFuncCalls_fmtEnd_some cfg g hg _ (by simp only; omega), if_pos hcut,
      hshown]
    refine ⟨rfl, ?_⟩
    intro n hn
    simp only [List.mem_singleton] at hn
    subst hn
    simp only
    omega
  · have hL : cfg.lengths xs.length = ((xs.length : Int), 0) := by
      by_cases h0 : cfg.CutOff = 0
      · exact lengths_of_zero cfg _ h0
      · exact lengths_of_le cfg (xs.length : Int) (by omega)
    rw [hL] at hcalls
    rw [hcalls, summaryFuncCalls_fmtEnd_zero, if_neg hcut]
    simp

/-- C8, the code at the failing inputs. With `CutOff = -1` and the slice
`[0, 1, 2]` no element is formatted and SummaryFunc is invoked with `n = 4`,
which is not the number (3) of elements left unformatted; with
`CutOff = -2^63` and the slice `[0]` it is invoked with the wrapped
`n = 1 - 2^63`, which is not positive. -/
theorem SummaryFunc_negative_CutOff :
    elementCalls ((Fmt (some negativeCutOff) (Value.slice ([0, 1, 2] : List Int))).Format
        fprintfInt plainState verbV) = []
    ∧ summaryFuncCalls ((Fmt (some negativeCutOff) (Value.slice ([0, 1, 2] : List Int))).Format
        fprintfInt plainState verbV) = [4]
    ∧ summaryFuncCalls ((Fmt (some minCutOff) (Value.slice ([0] : List Int))).Format
        fprintfInt plainState verbV) = [1 - 2 ^ 63] := by
  refine ⟨?_, ?_, ?_⟩
  · rw [elementCalls_Format _ _ _ _ _ (by decide)]
    simp [negativeCutOff, Config.lengths, expectedElements]
  · rw [summaryFuncCalls_Format _ _ _ _ _ (by decide)]
    simp [negativeCutOff, Config.lengths, wrapInt, Config.fmtEnd, summaryFuncCalls]
  · rw [summaryFuncCalls_Format _ _ _ _ _ (by decide)]
    simp [minCutOff, Config.lengths, wrapInt, Config.fmtEnd, summaryFuncCalls]

/-! ## Separator steps -/

theorem writesAt_print_self (site : Site) (s : String) :
    writesAt site (print site s) = if s = "" then [] else [s] := by
  unfold print
  by_cases h : s = "" <;> simp [h, writesAt]

theorem writesAt_Sep_fmtSep_some (cfg : Config) (sf : SepFunc) (h : cfg.SepFunc = some sf)
    (n last : Int) : writesAt Site.fmtSep (cfg.fmtSep n last) = [] := by
  simp [Config.fmtSep, h, writesAt]

theorem writesAt_Sep_fmtSep_none (cfg : Config) (h : cfg.SepFunc = none) (n last : Int) :
    writesAt Site.fmtSep (cfg.fmtSep n last) = if cfg.Sep = "" then [] else [cfg.Sep] := by
  simp only [Config.fmtSep, h]
  exact writesAt_print_self _ _

theorem writesAt_cons_element (site : Site) (format : String) (i : Int) (out : String)
    (t : List Call) : writesAt site (Call.element format i out :: t) = writesAt site t := by
  simp [writesAt]

/-- With a SepFunc the loop writes no `Sep`. -/
theorem writesAt_Sep_loopCalls_some {α : Type} (cfg : Config) (sf : SepFunc)
    (h : cfg.SepFunc = some sf) (Fprintf : String → α → String)
    (format : String) (last : Int) (xs : List α) :
    ∀ i : Nat, writesAt Site.fmtSep (loopCalls cfg Fprintf format last i xs) = [] := by
  induction xs with
  | nil => intro i; simp [loopCalls, writesAt]
  | cons x rest ih =>
    intro i
    simp only [loopCalls, writesAt_append, writesAt_cons_element, ih]
    by_cases h0 : i = 0
    · simp [h0, writesAt]
    · rw [if_neg h0, writesAt_Sep_fmtSep_some cfg sf h]
      rfl

/-- Without a SepFunc the loop from index `k + 1` on writes `Sep` once per
element, unless `Sep` is the empty string. -/
theorem writesAt_Sep_loopCalls_succ {α : Type} (cfg : Config)
    (h : cfg.SepFunc = none) (Fprintf : String → α → String)
    (format : String) (last : Int) (xs : List α) :
    ∀ k : Nat, writesAt Site.fmtSep (loopCalls cfg Fprintf format last (k + 1) xs)
      = if cfg.Sep = "" then [] else List.replicate xs.length cfg.Sep := by
  induction xs with
  | nil => intro k; simp [loopCalls, writesAt]
  | cons x rest ih =>
    intro k
    simp only [loopCalls, writesAt_append, writesAt_cons_element, ih]
    rw [if_neg (Nat.succ_ne_zero k), writesAt_Sep_fmtSep_none cfg h]
    by_cases hs : cfg.Sep = ""
    · simp [hs]
    · simp [hs, List.replicate_succ]

/-- Without a SepFunc the whole loop writes `Sep` once per element but the
first, unless `Sep` is the empty string. -/
theorem writesAt_Sep_loopCalls_zero {α : Type} (cfg : Config)
    (h : cfg.SepFunc = none) (Fprintf : String → α → String)
    (format : String) (last : Int) (xs : List α) :
    writesAt Site.fmtSep (loopCalls cfg Fprintf format last 0 xs)
      = if cfg.Sep = "" then [] else List.replicate (xs.length - 1) cfg.Sep := by
  cases xs with
  | nil => simp [loopCalls, writesAt]
  | cons x rest =>
    simp only [loopCalls, writesAt_append, writesAt_cons_element]
    rw [writesAt_Sep_loopCalls_succ cfg h]
    simp [writesAt]

/-- The `Sep` writes of the render of a non-empty slice are those of its loop. -/
theorem writesAt_Sep_Format {α : Type} (cfg : Config) (Fprintf : String → α → String)
    (f : State) (verb : Int) (xs : List α) (hxs : xs ≠ []) :
    writesAt Site.fmtSep ((Fmt (some cfg) (Value.slice xs)).Format Fprintf f verb)
      = writesAt Site.fmtSep (loopCalls cfg Fprintf (fmtFormatString f verb)
          ((cfg.lengths xs.length).1 - 2) 0 (xs.take (cfg.lengths xs.length).1.toNat)) := by
  rw [Format_slice cfg Fprintf f verb xs hxs]
  simp only [writesAt_append, Config.fmtPrefix]
  rw [writesAt_print_ne _ _ _ (by decide), writesAt_fmtEnd_ne _ _ _ (by decide)
    (by decide)]
  simp

/-- The loop over at least one element ends with an element call. -/
theorem loopCalls_ends_with_element {α : Type} (cfg : Config) (Fprintf : String → α → String)
    (format : String) (last : Int) (xs : List α) :
    ∀ i : Nat, xs ≠ [] → ∃ pre fmt j out,
      loopCalls cfg Fprintf format last i xs = pre ++ [Call.element fmt j out] := by
  induction xs with
  | nil => intro i h; exact absurd rfl h
  | cons x rest ih =>
    intro i _
    by_cases hr : rest = []
    · subst hr
      exact ⟨(if i = 0 then [] else cfg.fmtSep ((i : Int) - 1) last), format, (i : Int),
        Fprintf format x, by simp [loopCalls]⟩
    · obtain ⟨pre, fmt, j, out, hpre⟩ := ih (i + 1) hr
      refine ⟨(if i = 0 then [] else cfg.fmtSep ((i : Int) - 1) last)
        ++ Call.element format (i : Int) (Fprintf format x) :: pre, fmt, j, out, ?_⟩
      simp [loopCalls, hpre]

/-- With `CutOff ≥ 0` a non-empty slice has at least one element shown. -/
theorem lengths_fst_pos (cfg : Config) (len : Int) (hc : 0 ≤ cfg.CutOff) (hlen : 0 < len) :
    0 < (cfg.lengths len).1 := by
  unfold Config.lengths
  split
  · rename_i h
    simp only
    omega
  · exact hlen

/-- C9, where the claim fails. The zero Config (no SepFunc, `Sep` the empty
string) over `[1, 2]` formats two elements, yet the number of SepFunc
invocations and `Sep` writes is 0, not `2 - 1`: `print` issues no write for
the empty string. -/
theorem no_Sep_write_for_empty_Sep :
    (elementCalls ((Fmt (some {}) (Value.slice ([1, 2] : List Int))).Format
        fprintfInt plainState verbV)).length = 2
    ∧ ¬ (((sepFuncCalls ((Fmt (some {}) (Value.slice ([1, 2] : List Int))).Format
            fprintfInt plainState verbV)).length
          + (writesAt Site.fmtSep ((Fmt (some {}) (Value.slice ([1, 2] : List Int))).Format
            fprintfInt plainState verbV)).length : Int)
        = ((elementCalls ((Fmt (some {}) (Value.slice ([1, 2] : List Int))).Format
            fprintfInt plainState verbV)).length : Int) - 1) := by
  have h1 := elementCalls_Format_length {} fprintfInt plainState verbV
    ([1, 2] : List Int) (by decide)
  have h2 : sepFuncCalls ((Fmt (some {}) (Value.slice ([1, 2] : List Int))).Format
      fprintfInt plainState verbV) = [] := by
    rw [sepFuncCalls_Format _ _ _ _ _ (by decide)]
    exact sepFuncCalls_loopCalls_none _ rfl _ _ _ _ _
  have h3 : writesAt Site.fmtSep ((Fmt (some {}) (Value.slice ([1, 2] : List Int))).Format
      fprintfInt plainState verbV) = [] := by
    rw [writesAt_Sep_Format _ _ _ _ _ (by decide), writesAt_Sep_loopCalls_zero _ rfl]
    simp
  have h4 : (({} : Config).lengths (([1, 2] : List Int).length : Int)).1.toNat = 2 := by
    simp [Config.lengths]
  rw [h1, h2, h3, h4]
  simp

/-- With `CutOff > 0` at most `CutOff` elements are shown. -/
theorem lengths_fst_le_CutOff (cfg : Config) (len : Int) (hc : 0 < cfg.CutOff) :
    (cfg.lengths len).1 ≤ cfg.CutOff := by
  unfold Config.lengths
  split
  · exact le_refl _
  · rename_i h
    simp only
    omega

/-- C9, amended. For a Config with `CutOff ≥ 0` and a non-empty slice, with
`shown ≥ 1` the number of elements formatted: a SepFunc, when set, is invoked
exactly `shown - 1` times and `Sep` is never written; without a SepFunc, `Sep`
is written exactly `shown - 1` times when it is not the empty string and not
at all when it is; the render ends with the last element call followed
directly by `fmtEnd`, which neither invokes SepFunc nor writes `Sep`; and when
`CutOff > 0` the number of SepFunc invocations is below `CutOff`. -/
theorem separator_steps {α : Type} (cfg : Config) (Fprintf : String → α → String)
    (f : State) (verb : Int) (xs : List α) (hc : 0 ≤ cfg.CutOff) (hxs : xs ≠ []) :
    1 ≤ (elementCalls ((Fmt (some cfg) (Value.slice xs)).Format Fprintf f verb)).length
      ∧ (∀ sf, cfg.SepFunc = some sf →
          (sepFuncCalls ((Fmt (some cfg) (Value.slice xs)).Format Fprintf f verb)).length
              = (elementCalls ((Fmt (some cfg) (Value.slice xs)).Format Fprintf f verb)).length - 1
            ∧ writesAt Site.fmtSep ((Fmt (some cfg) (Value.slice xs)).Format Fprintf f verb) = [])
      ∧ (cfg.SepFunc = none →
          sepFuncCalls ((Fmt (some cfg) (Value.slice xs)).Format Fprintf f verb) = []
            ∧ writesAt Site.fmtSep ((Fmt (some cfg) (Value.slice xs)).Format Fprintf f verb)
              = if cfg.Sep = "" then []
                else List.replicate
                  ((elementCalls
                    ((Fmt (some cfg) (Value.slice xs)).Format Fprintf f verb)).length - 1)
                  cfg.Sep)
      ∧ (∃ pre fmt j out, (Fmt (some cfg) (Value.slice xs)).Format Fprintf f verb
          = pre ++ Call.element fmt j out :: cfg.fmtEnd (cfg.lengths xs.length).2)
      ∧ sepFuncCalls (cfg.fmtEnd (cfg.lengths xs.length).2) = []
      ∧ writesAt Site.fmtSep (cfg.fmtEnd (cfg.lengths xs.length).2) = []
      ∧ (0 < cfg.CutOff →
          ((sepFuncCalls ((Fmt (some cfg) (Value.slice xs)).Format Fprintf f verb)).length : Int)
            < cfg.CutOff) := by
  have hshown := elementCalls_Format_length cfg Fprintf f verb xs hxs
  have hlenpos : (0 : Int) < xs.length := by
    have := List.length_pos.mpr hxs
    omega
  have hpos := lengths_fst_pos cfg xs.length hc hlenpos
  have hle := lengths_fst_le cfg xs.length
  have htake : (xs.take (cfg.lengths xs.length).1.toNat).length
      = (cfg.lengths xs.length).1.toNat := by
    rw [List.length_take]; omega
  have hsome : ∀ sf, cfg.SepFunc = some sf →
      (sepFuncCalls ((Fmt (some cfg) (Value.slice xs)).Format Fprintf f verb)).length
        = (cfg.lengths xs.length).1.toNat - 1 := by
    intro sf hsf
    rw [sepFuncCalls_Format cfg Fprintf f verb xs hxs, sepFuncCalls_loopCalls_zero cfg sf hsf]
    simp [htake]
  have hnone : cfg.SepFunc = none →
      sepFuncCalls ((Fmt (some cfg) (Value.slice xs)).Format Fprintf f verb) = [] := by
    intro hn
    rw [sepFuncCalls_Format cfg Fprintf f verb xs hxs]
    exact sepFuncCalls_loopCalls_none cfg hn _ _ _ _ _
  refine ⟨by omega, ?_, ?_, ?_, sepFuncCalls_fmtEnd _ _,
    writesAt_fmtEnd_ne _ _ _ (by decide) (by decide), ?_⟩
  · intro sf hsf
    refine ⟨by rw [hsome sf hsf, hshown], ?_⟩
    rw [writesAt_Sep_Format cfg Fprintf f verb xs hxs]
    exact writesAt_Sep_loopCalls_some cfg sf hsf _ _ _ _ _
  · intro hn
    refine ⟨hnone hn, ?_⟩
    rw [writesAt_Sep_Format cfg Fprintf f verb xs hxs, writesAt_Sep_loopCalls_zero cfg hn,
      htake, hshown]
  · have hne : xs.take (cfg.lengths xs.length).1.toNat ≠ [] := by
      intro h
      rw [h] at htake
      simp at htake
      omega
    obtain ⟨pre, fmt, j, out, hpre⟩ := loopCalls_ends_with_element cfg Fprintf
      (fmtFormatString f verb) ((cfg.lengths xs.length).1 - 2) _ 0 hne
    refine ⟨cfg.fmtPrefix ++ pre, fmt, j, out, ?_⟩
    rw [Format_slice cfg Fprintf f verb xs hxs, hpre]
    simp
  · intro hcpos
    have hcut := lengths_fst_le_CutOff cfg xs.length hcpos
    cases hsf : cfg.SepFunc with
    | none => rw [hnone hsf]; simpa using hcpos
    | some sf =>
      rw [hsome sf hsf]
      omega

/-- C9 amended, at Example_complex: CutOff 3 over the five strings a..e
formats three elements, invokes SepFunc twice and writes no `Sep`. -/
theorem separator_steps_witness :
    (0 : Int) ≤ exampleComplex.CutOff
    ∧ (sepFuncCalls ((Fmt (some exampleComplex)
        (Value.slice ["a", "b", "c", "d", "e"])).Format fprintfString plainState verbQ)).length
      = (elementCalls ((Fmt (some exampleComplex)
        (Value.slice ["a", "b", "c", "d", "e"])).Format fprintfString plainState verbQ)).length - 1
    ∧ (elementCalls ((Fmt (some exampleComplex)
        (Value.slice ["a", "b", "c", "d", "e"])).Format fprintfString plainState verbQ)).length = 3
    ∧ writesAt Site.fmtSep ((Fmt (some exampleComplex)
        (Value.slice ["a", "b", "c", "d", "e"])).Format fprintfString plainState verbQ) = [] := by
  have h := separator_steps exampleComplex fprintfString plainState verbQ
    ["a", "b", "c", "d", "e"] (by decide) (by decide)
  refine ⟨by decide, (h.2.1 commaAnd rfl).1, ?_, (h.2.1 commaAnd rfl).2⟩
  rw [elementCalls_Format_length _ _ _ _ _ (by decide)]
  simp [exampleComplex, Config.lengths]

/-! ## Callbacks and static strings -/

theorem loopCalls_congr {α : Type} (cfg cfg' : Config)
    (hs : ∀ n last, cfg'.fmtSep n last = cfg.fmtSep n last)
    (Fprintf : String → α → String) (format : String) (last : Int) (xs : List α) :
    ∀ i : Nat, loopCalls cfg' Fprintf format last i xs
      = loopCalls cfg Fprintf format last i xs := by
  induction xs with
  | nil => intro i; simp [loopCalls]
  | cons x rest ih => intro i; simp only [loopCalls, ih, hs]

/-- Two Configs whose helper methods agree render every value alike. -/
theorem Format_congr {α : Type} (cfg cfg' : Config)
    (hlen : ∀ len, cfg'.lengths len = cfg.lengths len)
    (hp : cfg'.fmtPrefix = cfg.fmtPrefix)
    (he : ∀ b, cfg'.fmtEmpty b = cfg.fmtEmpty b)
    (hs : ∀ n last, cfg'.fmtSep n last = cfg.fmtSep n last)
    (hend : ∀ n, cfg'.fmtEnd n = cfg.fmtEnd n)
    (Fprintf : String → α → String) (f : State) (verb : Int) (v : Value α) :
    (Fmt (some cfg') v).Format Fprintf f verb = (Fmt (some cfg) v).Format Fprintf f verb := by
  cases v with
  | invalid => simp [Fmt, pair.Format, Value.IsValid]
  | other k => simp [Fmt, pair.Format, Value.IsValid, Value.Kind]
  | nilSlice =>
    rw [Format_empty cfg' Fprintf f verb Value.nilSlice rfl rfl,
      Format_empty cfg Fprintf f verb Value.nilSlice rfl rfl, he]
  | slice xs =>
    by_cases hxs : xs = []
    · subst hxs
      rw [Format_empty cfg' Fprintf f verb (Value.slice []) rfl rfl,
        Format_empty cfg Fprintf f verb (Value.slice []) rfl rfl, he]
    · rw [Format_slice cfg' Fprintf f verb xs hxs, Format_slice cfg Fprintf f verb xs hxs,
        hlen, hp, hend, loopCalls_congr cfg cfg' hs]

/-- The `Sep` writes of any render are those of `fmtSep` in its loop; with a
SepFunc there are none. -/
theorem writesAt_Sep_of_SepFunc {α : Type} (cfg : Config) (sf : SepFunc)
    (hsf : cfg.SepFunc = some sf) (Fprintf : String → α → String)
    (f : State) (verb : Int) (v : Value α) :
    writesAt Site.fmtSep ((Fmt (some cfg) v).Format Fprintf f verb) = [] := by
  cases v with
  | invalid => simp [Fmt, pair.Format, Value.IsValid, writesAt]
  | other k => simp [Fmt, pair.Format, Value.IsValid, Value.Kind, writesAt]
  | nilSlice =>
    rw [Format_empty cfg Fprintf f verb Value.nilSlice rfl rfl, fmtEmpty_eq_print]
    exact writesAt_print_ne _ _ _ (by decide)
  | slice xs =>
    by_cases hxs : xs = []
    · subst hxs
      rw [Format_empty cfg Fprintf f verb (Value.slice []) rfl rfl, fmtEmpty_eq_print]
      exact writesAt_print_ne _ _ _ (by decide)
    · rw [writesAt_Sep_Format cfg Fprintf f verb xs hxs]
      exact writesAt_Sep_loopCalls_some cfg sf hsf _ _ _ _ _

theorem writesAt_Summary_fmtEnd_some (cfg : Config) (g : SummaryFunc)
    (hg : cfg.SummaryFunc = some g) (n : Int) :
    writesAt Site.fmtSummary (cfg.fmtEnd n) = [] := by
  unfold Config.fmtEnd
  split
  · exact writesAt_print_ne _ _ _ (by decide)
  · simp [hg, writesAt]

theorem mem_writesAt_Summary_fmtEnd (cfg : Config) (n : Int) :
    ∀ s ∈ writesAt Site.fmtSummary (cfg.fmtEnd n), s = cfg.Summary := by
  unfold Config.fmtEnd
  split
  · rw [writesAt_print_ne _ _ _ (by decide)]; simp
  · cases cfg.SummaryFunc with
    | some g => simp [writesAt]
    | none =>
      simp only
      rw [writesAt_print_self]
      split <;> simp

/-- The `Summary` writes of any render are those of its `fmtEnd`. -/
theorem writesAt_Summary_Format {α : Type} (cfg : Config) (Fprintf : String → α → String)
    (f : State) (verb : Int) (v : Value α) :
    writesAt Site.fmtSummary ((Fmt (some cfg) v).Format Fprintf f verb) = []
      ∨ ∃ n, writesAt Site.fmtSummary ((Fmt (some cfg) v).Format Fprintf f verb)
          = writesAt Site.fmtSummary (cfg.fmtEnd n) := by
  cases v with
  | invalid => left; simp [Fmt, pair.Format, Value.IsValid, writesAt]
  | other k => left; simp [Fmt, pair.Format, Value.IsValid, Value.Kind, writesAt]
  | nilSlice =>
    left
    rw [Format_empty cfg Fprintf f verb Value.nilSlice rfl rfl, fmtEmpty_eq_print]
    exact writesAt_print_ne _ _ _ (by decide)
  | slice xs =>
    by_cases hxs : xs = []
    · left
      subst hxs
      rw [Format_empty cfg Fprintf f verb (Value.slice []) rfl rfl, fmtEmpty_eq_print]
      exact writesAt_print_ne _ _ _ (by decide)
    · right
      refine ⟨(cfg.lengths xs.length).2, ?_⟩
      rw [writesAt_Format_ne cfg Fprintf f verb xs hxs _ (by decide)]
      simp only [Config.fmtPrefix]
      rw [writesAt_print_ne _ _ _ (by decide)]
      rfl

/-- The SepFunc invocations of any render without a SepFunc: none. -/
theorem sepFuncCalls_of_no_SepFunc {α : Type} (cfg : Config)
    (hn : cfg.SepFunc = none) (Fprintf : String → α → String)
    (f : State) (verb : Int) (v : Value α) :
    sepFuncCalls ((Fmt (some cfg) v).Format Fprintf f verb) = [] := by
  cases v with
  | invalid => simp [Fmt, pair.Format, Value.IsValid, sepFuncCalls]
  | other k => simp [Fmt, pair.Format, Value.IsValid, Value.Kind, sepFuncCalls]
  | nilSlice =>
    rw [Format_empty cfg Fprintf f verb Value.nilSlice rfl rfl, fmtEmpty_eq_print]
    exact sepFuncCalls_print _ _
  | slice xs =>
    by_cases hxs : xs = []
    · subst hxs
      rw [Format_empty cfg Fprintf f verb (Value.slice []) rfl rfl, fmtEmpty_eq_print]
      exact sepFuncCalls_print _ _
    · rw [sepFuncCalls_Format cfg Fprintf f verb xs hxs]
      exact sepFuncCalls_loopCalls_none cfg hn _ _ _ _ _

/-- The SummaryFunc invocations of any render without a SummaryFunc: none. -/
theorem summaryFuncCalls_of_no_SummaryFunc {α : Type} (cfg : Config)
    (hn : cfg.SummaryFunc = none) (Fprintf : String → α → String)
    (f : State) (verb : Int) (v : Value α) :
    summaryFuncCalls ((Fmt (some cfg) v).Format Fprintf f verb) = [] := by
  cases v with
  | invalid => simp [Fmt, pair.Format, Value.IsValid, summaryFuncCalls]
  | other k => simp [Fmt, pair.Format, Value.IsValid, Value.Kind, summaryFuncCalls]
  | nilSlice =>
    rw [Format_empty cfg Fprintf f verb Value.nilSlice rfl rfl, fmtEmpty_eq_print]
    exact summaryFuncCalls_print _ _
  | slice xs =>
    by_cases hxs : xs = []
    · subst hxs
      rw [Format_empty cfg Fprintf f verb (Value.slice []) rfl rfl, fmtEmpty_eq_print]
      exact summaryFuncCalls_print _ _
    · rw [summaryFuncCalls_Format cfg Fprintf f verb xs hxs]
      exact summaryFuncCalls_fmtEnd_none cfg hn _

/-- Without a SepFunc every `Sep` write of any render carries `cfg.Sep`. -/
theorem mem_writesAt_Sep_Format {α : Type} (cfg : Config) (hn : cfg.SepFunc = none)
    (Fprintf : String → α → String) (f : State) (verb : Int) (v : Value α) :
    ∀ s ∈ writesAt Site.fmtSep ((Fmt (some cfg) v).Format Fprintf f verb), s = cfg.Sep := by
  cases v with
  | invalid => simp [Fmt, pair.Format, Value.IsValid, writesAt]
  | other k => simp [Fmt, pair.Format, Value.IsValid, Value.Kind, writesAt]
  | nilSlice =>
    rw [Format_empty cfg Fprintf f verb Value.nilSlice rfl rfl, fmtEmpty_eq_print,
      writesAt_print_ne _ _ _ (by decide)]
    simp
  | slice xs =>
    by_cases hxs : xs = []
    · subst hxs
      rw [Format_empty cfg Fprintf f verb (Value.slice []) rfl rfl, fmtEmpty_eq_print,
        writesAt_print_ne _ _ _ (by decide)]
      simp
    · rw [writesAt_Sep_Format cfg Fprintf f verb xs hxs, writesAt_Sep_loopCalls_zero cfg hn]
      intro s hs
      split at hs
      · simp at hs
      · exact (List.mem_replicate.mp hs).2

theorem sepFunc_mem_fmtSep (cfg : Config) (sf : SepFunc) (hsf : cfg.SepFunc = some sf)
    (n last n' last' : Int) (out : String)
    (h : Call.sepFunc n last out ∈ cfg.fmtSep n' last') : out = sf n last := by
  simp only [Config.fmtSep, hsf, List.mem_singleton, Call.sepFunc.injEq] at h
  obtain ⟨h1, h2, h3⟩ := h
  rw [h1, h2, h3]

theorem sepFunc_mem_loopCalls {α : Type} (cfg : Config) (sf : SepFunc)
    (hsf : cfg.SepFunc = some sf) (Fprintf : String → α → String) (format : String)
    (last' : Int) (n last : Int) (out : String) (xs : List α) :
    ∀ i : Nat, Call.sepFunc n last out ∈ loopCalls cfg Fprintf format last' i xs →
      out = sf n last := by
  induction xs with
  | nil => intro i h; simp [loopCalls] at h
  | cons x rest ih =>
    intro i h
    simp only [loopCalls, List.mem_append, List.mem_cons] at h
    rcases h with h | h | h
    · by_cases h0 : i = 0
      · simp [h0] at h
      · rw [if_neg h0] at h
        exact sepFunc_mem_fmtSep cfg sf hsf _ _ _ _ out h
    · cases h
    · exact ih (i + 1) h

/-- Every SepFunc call of any render carries the text the SepFunc writes for
its arguments. -/
theorem sepFunc_mem_Format {α : Type} (cfg : Config) (sf : SepFunc)
    (hsf : cfg.SepFunc = some sf) (Fprintf : String → α → String)
    (f : State) (verb : Int) (v : Value α) (n last : Int) (out : String)
    (h : Call.sepFunc n last out ∈ (Fmt (some cfg) v).Format Fprintf f verb) :
    out = sf n last := by
  have hcalls : (n, last) ∈ sepFuncCalls ((Fmt (some cfg) v).Format Fprintf f verb) := by
    unfold sepFuncCalls
    rw [List.mem_filterMap]
    exact ⟨_, h, rfl⟩
  cases v with
  | invalid =>
    rw [Format_not_Slice cfg Fprintf f verb _ (by simp [Value.Kind])] at h
    simp at h
  | other k =>
    rw [Format_not_Slice cfg Fprintf f verb _ (by simp [Value.Kind])] at h
    simp at h
  | nilSlice =>
    rw [Format_empty cfg Fprintf f verb Value.nilSlice rfl rfl, fmtEmpty_eq_print,
      sepFuncCalls_print] at hcalls
    cases hcalls
  | slice xs =>
    by_cases hxs : xs = []
    · subst hxs
      rw [Format_empty cfg Fprintf f verb (Value.slice []) rfl rfl, fmtEmpty_eq_print,
        sepFuncCalls_print] at hcalls
      cases hcalls
    · rw [Format_slice cfg Fprintf f verb xs hxs] at h
      simp only [List.mem_append, Config.fmtPrefix] at h
      rcases h with (h | h) | h
      · exact absurd (mem_print _ _ _ h) (by simp)
      · exact sepFunc_mem_loopCalls cfg sf hsf Fprintf _ _ n last out _ 0 h
      · have hend : (n, last) ∈ sepFuncCalls (cfg.fmtEnd (cfg.lengths xs.length).2) := by
          unfold sepFuncCalls
          rw [List.mem_filterMap]
          exact ⟨_, h, rfl⟩
        rw [sepFuncCalls_fmtEnd] at hend
        cases hend

/-- Every SummaryFunc call of any render carries the text the SummaryFunc
writes for its argument. -/
theorem summaryFunc_mem_Format {α : Type} (cfg : Config) (g : SummaryFunc)
    (hg : cfg.SummaryFunc = some g) (Fprintf : String → α → String)
    (f : State) (verb : Int) (v : Value α) (n : Int) (out : String)
    (h : Call.summaryFunc n out ∈ (Fmt (some cfg) v).Format Fprintf f verb) :
    out = g n := by
  have hcalls : n ∈ summaryFuncCalls ((Fmt (some cfg) v).Format Fprintf f verb) := by
    unfold summaryFuncCalls
    rw [List.mem_filterMap]
    exact ⟨_, h, rfl⟩
  cases v with
  | invalid =>
    rw [Format_not_Slice cfg Fprintf f verb _ (by simp [Value.Kind])] at h
    simp at h
  | other k =>
    rw [Format_not_Slice cfg Fprintf f verb _ (by simp [Value.Kind])] at h
    simp at h
  | nilSlice =>
    rw [Format_empty cfg Fprintf f verb Value.nilSlice rfl rfl, fmtEmpty_eq_print,
      summaryFuncCalls_print] at hcalls
    cases hcalls
  | slice xs =>
    by_cases hxs : xs = []
    · subst hxs
      rw [Format_empty cfg Fprintf f verb (Value.slice []) rfl rfl, fmtEmpty_eq_print,
        summaryFuncCalls_print] at hcalls
      cases hcalls
    · rw [Format_slice cfg Fprintf f verb xs hxs] at h
      simp only [List.mem_append, Config.fmtPrefix] at h
      rcases h with (h | h) | h
      · exact absurd (mem_print _ _ _ h) (by simp)
      · have hloop : n ∈ summaryFuncCalls (loopCalls cfg Fprintf (fmtFormatString f verb)
            ((cfg.lengths xs.length).1 - 2) 0 (xs.take (cfg.lengths xs.length).1.toNat)) := by
          unfold summaryFuncCalls
          rw [List.mem_filterMap]
          exact ⟨_, h, rfl⟩
        rw [summaryFuncCalls_loopCalls] at hloop
        cases hloop
      · unfold Config.fmtEnd at h
        split at h
        · exact absurd (mem_print _ _ _ h) (by simp)
        · simp only [hg, List.mem_singleton, Call.summaryFunc.injEq] at h
          rw [h.1, h.2]

/-- With a SepFunc, the render of a non-empty slice invokes it once for each
gap between the elements it formats. -/
theorem sepFuncCalls_Format_shown {α : Type} (cfg : Config) (sf : SepFunc)
    (Fprintf : String → α → String) (f : State) (verb : Int) (xs : List α)
    (hs : cfg.SepFunc = some sf) (hxs : xs ≠ []) :
    sepFuncCalls ((Fmt (some cfg) (Value.slice xs)).Format Fprintf f verb)
      = (List.range
          ((elementCalls ((Fmt (some cfg) (Value.slice xs)).Format Fprintf f verb)).length
            - 1)).map
        (fun (n : Nat) => ((n : Int),
          ((elementCalls ((Fmt (some cfg) (Value.slice xs)).Format Fprintf f verb)).length
            : Int) - 2)) := by
  rw [sepFuncCalls_Format cfg Fprintf f verb xs hxs,
    elementCalls_Format_length cfg Fprintf f verb xs hxs,
    sepFuncCalls_loopCalls_zero cfg sf hs, List.length_take]
  have hle := lengths_fst_le cfg xs.length
  have hmin : min (cfg.lengths xs.length).1.toNat xs.length
      = (cfg.lengths xs.length).1.toNat := by
    omega
  rw [hmin]
  by_cases hN : 0 ≤ (cfg.lengths xs.length).1
  · rw [Int.toNat_of_nonneg hN]
  · have h0 : (cfg.lengths xs.length).1.toNat = 0 := by omega
    simp [h0]

/-- With a SummaryFunc, the render of a non-empty slice invokes it exactly
when `lengths` leaves something over, once, with that count. -/
theorem summaryFuncCalls_Format_some {α : Type} (cfg : Config) (g : SummaryFunc)
    (Fprintf : String → α → String) (f : State) (verb : Int) (xs : List α)
    (hg : cfg.SummaryFunc = some g) (hxs : xs ≠ []) :
    summaryFuncCalls ((Fmt (some cfg) (Value.slice xs)).Format Fprintf f verb)
      = if (cfg.lengths xs.length).2 = 0 then [] else [(cfg.lengths xs.length).2] := by
  rw [summaryFuncCalls_Format cfg Fprintf f verb xs hxs]
  by_cases h0 : (cfg.lengths xs.length).2 = 0
  · rw [if_pos h0, h0]
    exact summaryFuncCalls_fmtEnd_zero cfg
  · rw [if_neg h0]
    exact summaryFuncCalls_fmtEnd_some cfg g hg _ h0

/-- C10. Callbacks take precedence over the static strings, and exactly one
of each pair is used. With a SepFunc: every separator step is one invocation
of it, whose text is what reaches the sink; every SepFunc call of a render
carries the text the SepFunc writes for its arguments; the render of a
non-empty slice invokes it once for each gap between the elements formatted;
replacing `Sep` by any string leaves the render of every value unchanged,
call for call; and `Sep` is never written. With a SummaryFunc: the end step
for a non-zero count is one invocation of it, whose text is what reaches the
sink; the render of a non-empty slice invokes it exactly when `lengths`
leaves something over, with that count; replacing `Summary` leaves every
render unchanged; and `Summary` is never written. Without a SepFunc none is
invoked, every separator step is the `print` of `Sep` and every separator
write carries `Sep`; without a SummaryFunc none is invoked, the end step for
a non-zero count is the `print` of `Summary` and every summary write carries
`Summary`. -/
theorem callbacks_take_precedence {α : Type} (cfg : Config) (Fprintf : String → α → String)
    (f : State) (verb : Int) (v : Value α) :
    (∀ sf, cfg.SepFunc = some sf →
        (∀ s, (Fmt (some { cfg with Sep := s }) v).Format Fprintf f verb
            = (Fmt (some cfg) v).Format Fprintf f verb)
          ∧ writesAt Site.fmtSep ((Fmt (some cfg) v).Format Fprintf f verb) = []
          ∧ (∀ n last, cfg.fmtSep n last = [Call.sepFunc n last (sf n last)]
              ∧ output (cfg.fmtSep n last) = sf n last)
          ∧ (∀ n last out,
              Call.sepFunc n last out ∈ (Fmt (some cfg) v).Format Fprintf f verb →
                out = sf n last)
          ∧ (∀ xs, v = Value.slice xs → xs ≠ [] →
              sepFuncCalls ((Fmt (some cfg) v).Format Fprintf f verb)
                = (List.range
                    ((elementCalls ((Fmt (some cfg) v).Format Fprintf f verb)).length
                      - 1)).map
                  (fun (n : Nat) => ((n : Int),
                    ((elementCalls ((Fmt (some cfg) v).Format Fprintf f verb)).length
                      : Int) - 2))))
      ∧ (∀ g, cfg.SummaryFunc = some g →
        (∀ s, (Fmt (some { cfg with Summary := s }) v).Format Fprintf f verb
            = (Fmt (some cfg) v).Format Fprintf f verb)
          ∧ writesAt Site.fmtSummary ((Fmt (some cfg) v).Format Fprintf f verb) = []
          ∧ (∀ n, n ≠ 0 → cfg.fmtEnd n = [Call.summaryFunc n (g n)]
              ∧ output (cfg.fmtEnd n) = g n)
          ∧ (∀ n out,
              Call.summaryFunc n out ∈ (Fmt (some cfg) v).Format Fprintf f verb →
                out = g n)
          ∧ (∀ xs, v = Value.slice xs → xs ≠ [] →
              summaryFuncCalls ((Fmt (some cfg) v).Format Fprintf f verb)
                = if (cfg.lengths xs.length).2 = 0 then []
                  else [(cfg.lengths xs.length).2]))
      ∧ (cfg.SepFunc = none →
        sepFuncCalls ((Fmt (some cfg) v).Format Fprintf f verb) = []
          ∧ (∀ s ∈ writesAt Site.fmtSep ((Fmt (some cfg) v).Format Fprintf f verb),
              s = cfg.Sep)
          ∧ (∀ n last, cfg.fmtSep n last = print Site.fmtSep cfg.Sep
              ∧ output (cfg.fmtSep n last) = cfg.Sep))
      ∧ (cfg.SummaryFunc = none →
        summaryFuncCalls ((Fmt (some cfg) v).Format Fprintf f verb) = []
          ∧ (∀ s ∈ writesAt Site.fmtSummary ((Fmt (some cfg) v).Format Fprintf f verb),
              s = cfg.Summary)
          ∧ (∀ n, n ≠ 0 → cfg.fmtEnd n = print Site.fmtSummary cfg.Summary
              ∧ output (cfg.fmtEnd n) = cfg.Summary)) := by
  refine ⟨?_, ?_, ?_, ?_⟩
  · intro sf hsf
    refine ⟨?_, writesAt_Sep_of_SepFunc cfg sf hsf Fprintf f verb v, ?_,
      fun n last out h => sepFunc_mem_Format cfg sf hsf Fprintf f verb v n last out h, ?_⟩
    · intro s
      apply Format_congr
      · intro len; rfl
      · rfl
      · intro b; rfl
      · intro n last; simp [Config.fmtSep, hsf]
      · intro n; rfl
    · intro n last
      have h : cfg.fmtSep n last = [Call.sepFunc n last (sf n last)] := by
        simp [Config.fmtSep, hsf]
      exact ⟨h, by rw [h]; simp [output, Call.text]⟩
    · intro xs hv hxs
      subst hv
      exact sepFuncCalls_Format_shown cfg sf Fprintf f verb xs hsf hxs
  · intro g hg
    refine ⟨?_, ?_, ?_,
      fun n out h => summaryFunc_mem_Format cfg g hg Fprintf f verb v n out h, ?_⟩
    · intro s
      apply Format_congr
      · intro len; rfl
      · rfl
      · intro b; rfl
      · intro n last; rfl
      · intro n; simp [Config.fmtEnd, hg]
    · rcases writesAt_Summary_Format cfg Fprintf f verb v with h | ⟨n, h⟩
      · exact h
      · rw [h]; exact writesAt_Summary_fmtEnd_some cfg g hg n
    · intro n hne
      have h : cfg.fmtEnd n = [Call.summaryFunc n (g n)] := by
        simp [Config.fmtEnd, hne, hg]
      exact ⟨h, by rw [h]; simp [output, Call.text]⟩
    · intro xs hv hxs
      subst hv
      exact summaryFuncCalls_Format_some cfg g Fprintf f verb xs hg hxs
  · intro hn
    refine ⟨sepFuncCalls_of_no_SepFunc cfg hn Fprintf f verb v,
      mem_writesAt_Sep_Format cfg hn Fprintf f verb v, ?_⟩
    intro n last
    have h : cfg.fmtSep n last = print Site.fmtSep cfg.Sep := by simp [Config.fmtSep, hn]
    exact ⟨h, by rw [h, output_print]⟩
  · intro hn
    refine ⟨summaryFuncCalls_of_no_SummaryFunc cfg hn Fprintf f verb v, ?_, ?_⟩
    · rcases writesAt_Summary_Format cfg Fprintf f verb v with h | ⟨n, h⟩
      · rw [h]; simp
      · rw [h]; exact mem_writesAt_Summary_fmtEnd cfg n
    · intro n hne
      have h : cfg.fmtEnd n = print Site.fmtSummary cfg.Summary := by
        simp [Config.fmtEnd, hne, hn]
      exact ⟨h, by rw [h, output_print]⟩

/-- C10, at Example_summary and Example_commas: giving `complex` (which has
a SummaryFunc) the Summary ` and so on` of `simple` does not change its
render of `[0, 1, 2]`, which is `0/1 (and 1 more)` with the SummaryFunc
invoked once, for 1, while `simple` renders `0/1 and so on`; giving
`notOxford` (which has a SepFunc) the Sep `/` does not change its render of
`[0, 1, 2, 3]`, which is `0, 1, 2 and 3` with the SepFunc invoked for
`(0, 2), (1, 2), (2, 2)`. -/
theorem callbacks_take_precedence_witness :
    output ((Fmt (some { summaryComplex with Summary := " and so on" })
        (Value.slice ([0, 1, 2] : List Int))).Format fprintfInt plainState verbV)
      = "0/1 (and 1 more)"
    ∧ output ((Fmt (some summarySimple)
        (Value.slice ([0, 1, 2] : List Int))).Format fprintfInt plainState verbV)
      = "0/1 and so on"
    ∧ summaryFuncCalls ((Fmt (some summaryComplex)
        (Value.slice ([0, 1, 2] : List Int))).Format fprintfInt plainState verbV) = [1]
    ∧ output ((Fmt (some { notOxford with Sep := "/" })
        (Value.slice ([0, 1, 2, 3] : List Int))).Format fprintfInt plainState verbV)
      = "0, 1, 2 and 3"
    ∧ sepFuncCalls ((Fmt (some notOxford)
        (Value.slice ([0, 1, 2, 3] : List Int))).Format fprintfInt plainState verbV)
      = [(0, 2), (1, 2), (2, 2)] := by
  have hfmt : fmtFormatString plainState verbV = "%v" := by decide
  have hsum := (callbacks_take_precedence summaryComplex fprintfInt plainState verbV
      (Value.slice ([0, 1, 2] : List Int))).2.1 andMore rfl
  have hsep := (callbacks_take_precedence notOxford fprintfInt plainState verbV
      (Value.slice ([0, 1, 2, 3] : List Int))).1 commaAnd rfl
  refine ⟨?_, ?_, ?_, ?_, ?_⟩
  · rw [hsum.1 " and so on", output_Format _ _ _ _ _ (by decide), hfmt]
    simp [renderText, Config.lengths, elementsText, sepText, endText, fprintfInt, AppendInt,
      formatNat, digitChar, summaryComplex, andMore, wrapInt]
  · rw [output_Format _ _ _ _ _ (by decide), hfmt]
    simp [renderText, Config.lengths, elementsText, sepText, endText, fprintfInt, AppendInt,
      formatNat, digitChar, summarySimple, wrapInt]
  · rw [hsum.2.2.2.2 _ rfl (by decide)]
    simp [summaryComplex, Config.lengths, wrapInt]
  · rw [hsep.1 "/", output_Format _ _ _ _ _ (by decide), hfmt]
    simp [renderText, Config.lengths, elementsText, sepText, endText, fprintfInt, AppendInt,
      formatNat, digitChar, notOxford, commaAnd]
  · rw [hsep.2.2.2.2 _ rfl (by decide),
      elementCalls_Format_length notOxford fprintfInt plainState verbV _ (by decide)]
    simp [notOxford, Config.lengths]
    decide

/-! ## The rebuilt format string -/

theorem push_eq_append (b : String) (c : Char) : b.push c = b ++ String.singleton c := by
  apply String.ext
  simp [String.data_push, String.data_append, String.singleton]

theorem foldl_push_filter (p : Char → Bool) (l : List Char) :
    ∀ b : String, l.foldl (fun b c => if p c then b.push c else b) b
      = b ++ String.mk (l.filter p) := by
  induction l with
  | nil => intro b; apply String.ext; simp [String.data_append]
  | cons c rest ih =>
    intro b
    rw [List.foldl_cons, ih]
    apply String.ext
    by_cases h : p c = true
    · simp [h, String.data_append, String.data_push]
    · simp [h, String.data_append]

theorem AppendInt_eq (b : String) (i : Int) : AppendInt b i = b ++ decimal i := by
  unfold AppendInt decimal
  by_cases h : i < 0
  · simp [h, String.append_assoc]
  · have ht : i.toNat = i.natAbs := by omega
    simp only [h, if_false, ht]
    apply String.ext
    simp [String.data_append]

theorem AppendRune_eq (b : String) (r : Int) :
    AppendRune b r = b ++ String.singleton (verbChar r) := by
  unfold AppendRune verbChar
  split <;> exact push_eq_append _ _

/-- The code's format string is the one the specification words. -/
theorem fmtFormatString_eq (state : State) (verb : Int) :
    fmtFormatString state verb = formatStringText state verb := by
  unfold fmtFormatString formatStringText flagChars knownFlags
  simp only []
  rw [AppendRune_eq]
  have hflags : " +-#0".toList.foldl
      (fun b c => if state.Flag (c.toNat : Int) then b.push c else b) "%"
      = "%" ++ String.mk ([' ', '+', '-', '#', '0'].filter
          (fun c => state.Flag (c.toNat : Int))) :=
    foldl_push_filter (fun c => state.Flag (c.toNat : Int)) _ "%"
  rw [hflags]
  cases state.Width <;> cases state.Precision <;>
    simp only [AppendInt_eq, push_eq_append] <;>
    apply String.ext <;>
    simp [String.data_append]

theorem digitChar_toNat : ∀ d, d < 10 → (digitChar d).toNat - 48 = d := by
  unfold digitChar
  decide

theorem foldl_digits (L : List Nat) (hL : ∀ d ∈ L, d < 10) :
    (L.reverse.map digitChar).foldl (fun acc c => 10 * acc + (c.toNat - 48)) 0
      = Nat.ofDigits 10 L := by
  induction L with
  | nil => simp
  | cons d rest ih =>
    have hd : d < 10 := hL d (List.mem_cons_self _ _)
    have hrest : ∀ e ∈ rest, e < 10 := fun e he => hL e (List.mem_cons_of_mem _ he)
    rw [List.reverse_cons, List.map_append, List.foldl_append, ih hrest]
    simp only [List.map_cons, List.map_nil, List.foldl_cons, List.foldl_nil,
      digitChar_toNat d hd, Nat.ofDigits_cons]
    omega

/-- The digits `formatNat` writes denote the number in base 10. -/
theorem parseNat_formatNat (n : Nat) : parseNat (formatNat n) = n := by
  unfold parseNat formatNat
  by_cases h : n = 0
  · subst h
    decide
  · simp only [h, if_false]
    rw [foldl_digits _ (fun d hd => Nat.digits_lt_base (by decide) hd), Nat.ofDigits_digits]

theorem decimal_of_nonneg (i : Int) (h : 0 ≤ i) : decimal i = formatNat i.toNat := by
  unfold decimal
  have h1 : ¬ i < 0 := by omega
  have h2 : i.natAbs = i.toNat := by omega
  rw [if_neg h1, h2]
  apply String.ext
  simp [String.data_append]

theorem flagChars_nodup (state : State) : (flagChars state).Nodup := by
  unfold flagChars
  exact List.Nodup.filter _ (by decide)

/-- C11. For every format state and every verb rune, `fmtFormatString`
returns exactly `%`, then those of ` `, `+`, `-`, `#`, `0` whose flag is set
(a sublist of that fixed order, each at most once, holding exactly the set
ones), then the base-10 width if a width is present, then `.` and the base-10
precision if a precision is present, then the one character that encodes the
verb: the verb itself when it is a Unicode scalar value (U+FFFD otherwise,
as `utf8.AppendRune` does). The base-10 text of a non-negative integer
denotes that integer. -/
theorem fmtFormatString_shape (state : State) (verb : Int) :
    fmtFormatString state verb
        = "%" ++ String.mk (flagChars state)
          ++ (match state.Width with
              | some w => decimal w
              | none => "")
          ++ (match state.Precision with
              | some p => "." ++ decimal p
              | none => "")
          ++ String.singleton (verbChar verb)
      ∧ List.Sublist (flagChars state) knownFlags
      ∧ (flagChars state).Nodup
      ∧ (∀ c ∈ knownFlags, c ∈ flagChars state ↔ state.Flag (c.toNat : Int) = true)
      ∧ (∀ i : Int, 0 ≤ i → parseNat (decimal i) = i.toNat)
      ∧ (0 ≤ verb → verb.toNat.isValidChar → verbChar verb = Char.ofNat verb.toNat) := by
  refine ⟨fmtFormatString_eq state verb, List.filter_sublist _, flagChars_nodup state,
    ?_, ?_, ?_⟩
  · intro c hc
    simp [flagChars, hc]
  · intro i hi
    rw [decimal_of_nonneg i hi, parseNat_formatNat]
  · intro h0 hv
    simp [verbChar, h0, hv]

/-- C11, at Example_simple: flag `0`, width 2, no precision and verb `d`
give `%02d`, so `[1, 2, 3]` with Sep ` ~ ` renders `01 ~ 02 ~ 03`; a verb
outside ASCII is kept, and takes several bytes. -/
theorem fmtFormatString_shape_witness :
    fmtFormatString zeroPad2 verbD = "%02d"
    ∧ output ((Fmt (some exampleSimple) (Value.slice ([1, 2, 3] : List Int))).Format
        fprintfIntPadded zeroPad2 verbD) = "01 ~ 02 ~ 03"
    ∧ fmtFormatString plainState 0x4e16 = "%世"
    ∧ (fmtFormatString plainState 0x4e16).utf8ByteSize = 4 := by
  have h1 : fmtFormatString zeroPad2 verbD = "%02d" := by
    rw [(fmtFormatString_shape zeroPad2 verbD).1]
    simp [flagChars, knownFlags, zeroPad2, verbD, decimal, formatNat, digitChar, verbChar]
    decide
  have h2 : fmtFormatString plainState 0x4e16 = "%世" := by
    rw [(fmtFormatString_shape plainState 0x4e16).1]
    decide
  refine ⟨h1, ?_, h2, ?_⟩
  · rw [output_Format _ _ _ _ _ (by decide), h1]
    simp [renderText, Config.lengths, elementsText, sepText, endText, fprintfIntPadded,
      AppendInt, formatNat, digitChar, exampleSimple]
  · rw [h2]
    decide

/-! ## The render on an explicit writer -/

theorem runCalls_append {σ : Type} (w : Writer σ) (st : σ) (a b : List Call) :
    runCalls w st (a ++ b) = runCalls w (runCalls w st a) b := by
  simp [runCalls, List.foldl_append]

theorem runCalls_print {σ : Type} (w : Writer σ) (st : σ) (site : Site) (s : String) :
    runCalls w st (print site s) = OnWriter.print w st s := by
  unfold print OnWriter.print
  by_cases h : s = ""
  · simp [h, runCalls]
  · simp [h, runCalls, Call.on, Call.text, OnWriter.Fprint]

theorem runCalls_fmtEmpty {σ : Type} (w : Writer σ) (st : σ) (cfg : Config) (isNil : Bool) :
    runCalls w st (cfg.fmtEmpty isNil) = OnWriter.fmtEmpty w cfg st isNil := by
  unfold Config.fmtEmpty OnWriter.fmtEmpty
  exact runCalls_print _ _ _ _

theorem runCalls_fmtSep {σ : Type} (w : Writer σ) (st : σ) (cfg : Config) (n last : Int) :
    runCalls w st (cfg.fmtSep n last) = OnWriter.fmtSep w cfg st n last := by
  unfold Config.fmtSep OnWriter.fmtSep
  cases cfg.SepFunc with
  | none => exact runCalls_print _ _ _ _
  | some sf => simp [runCalls, Call.on, Call.text, OnWriter.Fprint]

theorem runCalls_fmtEnd {σ : Type} (w : Writer σ) (st : σ) (cfg : Config) (n : Int) :
    runCalls w st (cfg.fmtEnd n) = OnWriter.fmtEnd w cfg st n := by
  unfold Config.fmtEnd OnWriter.fmtEnd
  split
  · exact runCalls_print _ _ _ _
  · cases cfg.SummaryFunc with
    | none => exact runCalls_print _ _ _ _
    | some g => simp [runCalls, Call.on, Call.text, OnWriter.Fprint]

theorem runCalls_formatLoop {σ α : Type} (w : Writer σ) (cfg : Config)
    (Fprintf : String → α → String) (format : String) (v : Value α) (N : Int) :
    ∀ (k : Nat) (i : Int) (st : σ), (N - i).toNat = k →
      OnWriter.formatLoop w cfg Fprintf format v N i st
        = runCalls w st (formatLoop cfg Fprintf format v N i) := by
  intro k
  induction k with
  | zero =>
    intro i st hk
    have hlt : ¬ i < N := by omega
    rw [OnWriter.formatLoop, formatLoop, if_neg hlt, if_neg hlt]
    rfl
  | succ k ih =>
    intro i st hk
    have hlt : i < N := by omega
    rw [OnWriter.formatLoop, formatLoop, if_pos hlt, if_pos hlt, runCalls_append]
    have hsep : runCalls w st (if i ≠ 0 then cfg.fmtSep (i - 1) (N - 2) else [])
        = (if i ≠ 0 then OnWriter.fmtSep w cfg st (i - 1) (N - 2) else st) := by
      by_cases h0 : i = 0
      · simp [h0, runCalls]
      · simp only [ne_eq, h0, not_false_eq_true, if_true]
        exact runCalls_fmtSep _ _ _ _ _
    rw [hsep]
    cases v.Index i with
    | none => simp [runCalls, Call.on]
    | some x =>
      simp only []
      rw [ih (i + 1) _ (by omega)]
      simp [runCalls, Call.on, Call.text, OnWriter.Fprint]

/-- The render on a writer makes exactly the calls of `pair.Format`, in
order, whatever the writer returns. -/
theorem OnWriter_Format_eq_runCalls {σ α : Type} (w : Writer σ) (p : pair α)
    (Fprintf : String → α → String) (f : State) (verb : Int) (st : σ) :
    OnWriter.Format w p Fprintf f verb st = runCalls w st (p.Format Fprintf f verb) := by
  unfold OnWriter.Format pair.Format
  cases p.c with
  | none => simp [runCalls, Call.on, Call.text, OnWriter.Fprint]
  | some cfg =>
    simp only []
    split
    · simp [runCalls, Call.on, Call.text, OnWriter.Fprint]
    · split
      · exact (runCalls_fmtEmpty _ _ _ _).symm
      · simp only [runCalls_append]
        rw [← runCalls_fmtEnd, runCalls_formatLoop w cfg Fprintf _ p.v _ _ 0 _ rfl]
        unfold OnWriter.fmtPrefix Config.fmtPrefix
        rw [runCalls_print]

theorem runCalls_recorder (tr : List Call) :
    ∀ h : String, runCalls recorder h tr = h ++ output tr := by
  induction tr with
  | nil => intro h; simp [runCalls, output]
  | cons c rest ih =>
    intro h
    have hstep : runCalls recorder h (c :: rest) = runCalls recorder (h ++ c.text) rest := by
      cases c <;> simp [runCalls, Call.on, Call.text, recorder]
    rw [hstep, ih, output, String.append_assoc]

theorem runCalls_failingAt_count (k : Nat) (tr : List Call) :
    ∀ st : Nat × String, (runCalls (failingAt k) st tr).1 = st.1 + madeCalls tr := by
  induction tr with
  | nil => intro st; simp [runCalls, madeCalls]
  | cons c rest ih =>
    intro st
    have hstep : runCalls (failingAt k) st (c :: rest)
        = runCalls (failingAt k) (Call.on (failingAt k) st c) rest := by
      simp [runCalls]
    rw [hstep, ih]
    cases c with
    | indexPanic i => simp [Call.on, madeCalls]
    | write site s =>
      by_cases hk : st.1 = k <;> simp [Call.on, madeCalls, failingAt, hk] <;> omega
    | element fmt i out =>
      by_cases hk : st.1 = k <;> simp [Call.on, madeCalls, failingAt, hk] <;> omega
    | sepFunc n last out =>
      by_cases hk : st.1 = k <;> simp [Call.on, madeCalls, failingAt, hk] <;> omega
    | summaryFunc n out =>
      by_cases hk : st.1 = k <;> simp [Call.on, madeCalls, failingAt, hk] <;> omega

/-- C12, where the claim fails. On a sink whose first write fails, the render
of `[1, 2, 3]` under the Config of Example_default still makes all its seven
calls: the failed write of `[` is followed by six more, whose text `1 2 3]`
reaches the sink. -/
theorem writes_continue_after_failure :
    ((failingAt 0).Write (0, "") "[").2 = true
    ∧ OnWriter.Format (failingAt 0)
        (Fmt (some exampleDefault) (Value.slice ([1, 2, 3] : List Int)))
        fprintfInt plainState verbV (0, "") = (7, "1 2 3]") := by
  refine ⟨by simp [failingAt], ?_⟩
  rw [OnWriter_Format_eq_runCalls, Format_slice _ _ _ _ _ (by decide)]
  have hfmt : fmtFormatString plainState verbV = "%v" := by decide
  rw [hfmt]
  simp [runCalls, Call.on, Call.text, failingAt, loopCalls, Config.lengths, Config.fmtPrefix,
    Config.fmtSep, Config.fmtEnd, print, exampleDefault, fprintfInt, AppendInt, formatNat,
    digitChar]

/-- C12, amended. A failing write is neither surfaced nor does it abort the
render: on every writer, whatever its calls return, `Format` makes exactly the
calls of the render, in order, and has no result but the sink; the number of
calls that reach a sink is the same whichever of them fails. -/
theorem Format_makes_every_call {σ α : Type} (w : Writer σ) (p : pair α)
    (Fprintf : String → α → String) (f : State) (verb : Int) (st : σ) :
    OnWriter.Format w p Fprintf f verb st = runCalls w st (p.Format Fprintf f verb)
      ∧ ∀ k : Nat, (OnWriter.Format (failingAt k) p Fprintf f verb (0, "")).1
          = madeCalls (p.Format Fprintf f verb) := by
  refine ⟨OnWriter_Format_eq_runCalls w p Fprintf f verb st, ?_⟩
  intro k
  rw [OnWriter_Format_eq_runCalls, runCalls_failingAt_count]
  simp

/-- C12 amended, at Example_default: with the fourth call failing, the
render of `[1, 2, 3]` still makes seven calls. -/
theorem Format_makes_every_call_witness :
    (OnWriter.Format (failingAt 3)
        (Fmt (some exampleDefault) (Value.slice ([1, 2, 3] : List Int)))
        fprintfInt plainState verbV (0, "")).1 = 7 := by
  rw [(Format_makes_every_call (failingAt 3)
    (Fmt (some exampleDefault) (Value.slice ([1, 2, 3] : List Int)))
    fprintfInt plainState verbV (0, "")).2 3, Format_slice _ _ _ _ _ (by decide)]
  simp [madeCalls, loopCalls, Config.lengths, Config.fmtPrefix, Config.fmtSep, Config.fmtEnd,
    print, exampleDefault]

/-! ## Negative cut off -/

theorem wrapInt_ne_zero (x : Int) (h1 : 0 < x) (h2 : x < 2 ^ 64) : wrapInt x ≠ 0 := by
  unfold wrapInt
  omega

/-- What the code does for a negative CutOff (a 64-bit int) and a non-empty
slice: `lengths` returns a negative first component and a non-zero second,
so no element is formatted, Postfix is not written and the end step is the
summary one. -/
theorem Format_of_negative_CutOff {α : Type} (cfg : Config) (Fprintf : String → α → String)
    (f : State) (verb : Int) (xs : List α) (hc : cfg.CutOff < 0) (hmin : -2 ^ 63 ≤ cfg.CutOff)
    (hxs : xs ≠ []) (hlen : (xs.length : Int) < 2 ^ 63) :
    elementCalls ((Fmt (some cfg) (Value.slice xs)).Format Fprintf f verb) = []
      ∧ writesAt Site.fmtPostfix ((Fmt (some cfg) (Value.slice xs)).Format Fprintf f verb) = []
      ∧ (cfg.lengths xs.length).2 ≠ 0 := by
  have hL : cfg.lengths xs.length = (cfg.CutOff, wrapInt ((xs.length : Int) - cfg.CutOff)) := by
    unfold Config.lengths
    rw [if_pos ⟨by omega, by omega⟩]
  have hne : wrapInt ((xs.length : Int) - cfg.CutOff) ≠ 0 :=
    wrapInt_ne_zero _ (by omega) (by omega)
  refine ⟨?_, ?_, by rw [hL]; exact hne⟩
  · rw [elementCalls_Format cfg Fprintf f verb xs hxs, hL]
    have : cfg.CutOff.toNat = 0 := by omega
    simp [this, expectedElements]
  · rw [writesAt_Format_ne cfg Fprintf f verb xs hxs _ (by decide), hL]
    simp only [Config.fmtPrefix]
    rw [writesAt_print_ne _ _ _ (by decide), writesAt_fmtEnd_Postfix_of_ne cfg _ hne]
    rfl

/-- C13, the code at the failing input. With `CutOff = -1`, Prefix `[`,
Postfix `]`, Sep a blank and Summary ` and so on`, the slice `[1, 2, 3]`
renders `[ and so on`: no element is formatted, Summary is written and
Postfix is not, whereas the same Config with `CutOff = 0` renders `[1 2 3]`. -/
theorem negative_CutOff_truncates :
    elementCalls ((Fmt (some negativeDefault) (Value.slice ([1, 2, 3] : List Int))).Format
        fprintfInt plainState verbV) = []
    ∧ writesAt Site.fmtSummary ((Fmt (some negativeDefault)
        (Value.slice ([1, 2, 3] : List Int))).Format fprintfInt plainState verbV)
      = [" and so on"]
    ∧ writesAt Site.fmtPostfix ((Fmt (some negativeDefault)
        (Value.slice ([1, 2, 3] : List Int))).Format fprintfInt plainState verbV) = []
    ∧ output ((Fmt (some negativeDefault) (Value.slice ([1, 2, 3] : List Int))).Format
        fprintfInt plainState verbV) = "[ and so on"
    ∧ output ((Fmt (some { negativeDefault with CutOff := 0 })
        (Value.slice ([1, 2, 3] : List Int))).Format fprintfInt plainState verbV)
      = "[1 2 3]" := by
  have hfmt : fmtFormatString plainState verbV = "%v" := by decide
  have h := Format_of_negative_CutOff negativeDefault fprintfInt plainState verbV
    ([1, 2, 3] : List Int) (by decide) (by decide) (by decide) (by norm_num)
  refine ⟨h.1, ?_, h.2.1, ?_, ?_⟩
  · rw [writesAt_Format_ne _ _ _ _ _ (by decide) _ (by decide)]
    simp [negativeDefault, Config.lengths, wrapInt, Config.fmtPrefix, Config.fmtEnd, print,
      writesAt]
  · rw [output_Format _ _ _ _ _ (by decide), hfmt]
    simp [renderText, Config.lengths, elementsText, endText, negativeDefault, wrapInt]
  · rw [output_Format _ _ _ _ _ (by decide), hfmt]
    simp [renderText, Config.lengths, elementsText, sepText, endText, fprintfInt, AppendInt,
      formatNat, digitChar, negativeDefault]

/-! ## A static summary -/

/-- With 0 < CutOff < L (a 64-bit int) and no SummaryFunc, the render is the
prefix, the loop over the first CutOff elements and the `print` of Summary. -/
theorem Format_cut_static {α : Type} (cfg : Config) (Fprintf : String → α → String)
    (f : State) (verb : Int) (xs : List α) (hs : cfg.SummaryFunc = none)
    (hc : 0 < cfg.CutOff) (hlt : cfg.CutOff < xs.length) (hlen : (xs.length : Int) < 2 ^ 63) :
    (Fmt (some cfg) (Value.slice xs)).Format Fprintf f verb
      = cfg.fmtPrefix
        ++ loopCalls cfg Fprintf (fmtFormatString f verb) (cfg.CutOff - 2) 0
            (xs.take cfg.CutOff.toNat)
        ++ print Site.fmtSummary cfg.Summary := by
  have hxs : xs ≠ [] := by
    intro h; subst h; simp at hlt; omega
  have hne : (xs.length : Int) - cfg.CutOff ≠ 0 := by omega
  rw [Format_slice cfg Fprintf f verb xs hxs, lengths_of_cut cfg xs.length hc hlt hlen]
  simp [Config.fmtEnd, hne, hs]

/-- C14. With a static summary the omitted count is not shown: for a Config
without SummaryFunc and with `CutOff = c > 0`, two slices whose lengths both
exceed `c` (64-bit ints) and whose first `c` elements are equal render with
the same calls, hence to the same text. -/
theorem static_summary_hides_count {α : Type} (cfg : Config) (Fprintf : String → α → String)
    (f : State) (verb : Int) (xs ys : List α) (hs : cfg.SummaryFunc = none)
    (hc : 0 < cfg.CutOff) (hx : cfg.CutOff < xs.length) (hy : cfg.CutOff < ys.length)
    (hxl : (xs.length : Int) < 2 ^ 63) (hyl : (ys.length : Int) < 2 ^ 63)
    (heq : xs.take cfg.CutOff.toNat = ys.take cfg.CutOff.toNat) :
    (Fmt (some cfg) (Value.slice xs)).Format Fprintf f verb
        = (Fmt (some cfg) (Value.slice ys)).Format Fprintf f verb
      ∧ output ((Fmt (some cfg) (Value.slice xs)).Format Fprintf f verb)
        = output ((Fmt (some cfg) (Value.slice ys)).Format Fprintf f verb) := by
  have h : (Fmt (some cfg) (Value.slice xs)).Format Fprintf f verb
      = (Fmt (some cfg) (Value.slice ys)).Format Fprintf f verb := by
    rw [Format_cut_static cfg Fprintf f verb xs hs hc hx hxl,
      Format_cut_static cfg Fprintf f verb ys hs hc hy hyl, heq]
  exact ⟨h, by rw [h]⟩

/-- C14, at Example_summary: Sep `/`, CutOff 2 and Summary ` and so on`
render both `[0, 1, 2]` and `[0, 1, 2, 3]` as `0/1 and so on`. -/
theorem static_summary_hides_count_witness :
    output ((Fmt (some summarySimple) (Value.slice ([0, 1, 2] : List Int))).Format
        fprintfInt plainState verbV) = "0/1 and so on"
    ∧ output ((Fmt (some summarySimple) (Value.slice ([0, 1, 2, 3] : List Int))).Format
        fprintfInt plainState verbV) = "0/1 and so on" := by
  have hfmt : fmtFormatString plainState verbV = "%v" := by decide
  have h := (static_summary_hides_count summarySimple fprintfInt plainState verbV
    ([0, 1, 2] : List Int) [0, 1, 2, 3] rfl (by decide) (by decide) (by decide)
    (by norm_num) (by norm_num) (by decide)).2
  have h3 : output ((Fmt (some summarySimple) (Value.slice ([0, 1, 2] : List Int))).Format
      fprintfInt plainState verbV) = "0/1 and so on" := by
    rw [output_Format _ _ _ _ _ (by decide), hfmt]
    simp [renderText, Config.lengths, elementsText, sepText, endText, fprintfInt, AppendInt,
      formatNat, digitChar, summarySimple, wrapInt]
  exact ⟨h3, by rw [← h]; exact h3⟩

/-! ## `lengths`, numerically -/

/-- A CutOff at or above the length renders as CutOff 0 does. -/
theorem Format_CutOff_ge_len {α : Type} (cfg : Config) (Fprintf : String → α → String)
    (f : State) (verb : Int) (v : Value α) (h : v.Len ≤ cfg.CutOff) :
    (Fmt (some cfg) v).Format Fprintf f verb
      = (Fmt (some { cfg with CutOff := 0 }) v).Format Fprintf f verb := by
  cases v with
  | invalid => simp [Fmt, pair.Format, Value.IsValid]
  | other k => simp [Fmt, pair.Format, Value.IsValid, Value.Kind]
  | nilSlice =>
    rw [Format_empty cfg Fprintf f verb Value.nilSlice rfl rfl,
      Format_empty _ Fprintf f verb Value.nilSlice rfl rfl]
    rfl
  | slice xs =>
    by_cases hxs : xs = []
    · subst hxs
      rw [Format_empty cfg Fprintf f verb (Value.slice []) rfl rfl,
        Format_empty _ Fprintf f verb (Value.slice []) rfl rfl]
      rfl
    · have hl : (xs.length : Int) ≤ cfg.CutOff := by
        simpa [Value.Len, Value.elems] using h
      rw [Format_slice cfg Fprintf f verb xs hxs, Format_slice _ Fprintf f verb xs hxs,
        lengths_of_le cfg _ hl, lengths_of_zero { cfg with CutOff := 0 } _ rfl,
        loopCalls_congr cfg { cfg with CutOff := 0 } (fun _ _ => rfl)]
      rfl

/-- C16. For every Config, whatever its CutOff, and every length `len` of a
slice (`0 ≤ len < 2^63`), `lengths(len)` returns `(shown, omitted)` with
`shown = min(len, c)`, `c` being `len` when `CutOff == 0` and `CutOff`
otherwise, and `omitted = len - shown`, `shown + omitted = len` in the 64-bit
arithmetic of Go's `int`; both hold in exact arithmetic as well whenever
`len - CutOff` does not overflow (so for every `CutOff ≥ 0`). A CutOff at or
above the length gives `(len, 0)` and a render identical to that of
`CutOff == 0`. -/
theorem lengths_min (cfg : Config) (len : Int) (h0 : 0 ≤ len) (hlen : len < 2 ^ 63) :
    (cfg.lengths len).1 = min len (if cfg.CutOff = 0 then len else cfg.CutOff)
      ∧ (cfg.lengths len).2 = wrapInt (len - (cfg.lengths len).1)
      ∧ wrapInt ((cfg.lengths len).1 + (cfg.lengths len).2) = len
      ∧ (len - cfg.CutOff < 2 ^ 63 →
          (cfg.lengths len).2 = len - (cfg.lengths len).1
            ∧ (cfg.lengths len).1 + (cfg.lengths len).2 = len)
      ∧ (len ≤ cfg.CutOff →
          cfg.lengths len = (len, 0)
            ∧ ∀ (α : Type) (Fprintf : String → α → String) (f : State) (verb : Int)
                (v : Value α), v.Len = len →
              (Fmt (some cfg) v).Format Fprintf f verb
                = (Fmt (some { cfg with CutOff := 0 }) v).Format Fprintf f verb) := by
  by_cases hcut : cfg.CutOff ≠ 0 ∧ len > cfg.CutOff
  · have hL : cfg.lengths len = (cfg.CutOff, wrapInt (len - cfg.CutOff)) := by
      unfold Config.lengths; rw [if_pos hcut]
    rw [hL]
    refine ⟨?_, rfl, ?_, ?_, ?_⟩
    · simp only [if_neg hcut.1]
      omega
    · simp only [wrapInt]
      omega
    · intro hno
      simp only [wrapInt]
      omega
    · intro hle
      omega
  · have hL : cfg.lengths len = (len, 0) := by
      unfold Config.lengths; rw [if_neg hcut]
    rw [hL]
    refine ⟨?_, ?_, ?_, ?_, ?_⟩
    · by_cases hc0 : cfg.CutOff = 0
      · simp [hc0]
      · simp only [if_neg hc0]
        omega
    · simp [wrapInt]
    · simp only [wrapInt]
      omega
    · intro _
      simp
    · intro hle
      refine ⟨rfl, ?_⟩
      intro α Fprintf f verb v hv
      exact Format_CutOff_ge_len cfg Fprintf f verb v (by rw [hv]; exact hle)

/-- C16, at Example_summary: CutOff 2 gives `(1, 0)`, `(2, 0)`, `(2, 1)`,
`(2, 2)` for the lengths 1, 2, 3, 4. -/
theorem lengths_min_witness :
    summarySimple.lengths 1 = (1, 0) ∧ summarySimple.lengths 2 = (2, 0)
    ∧ summarySimple.lengths 3 = (2, 1) ∧ summarySimple.lengths 4 = (2, 2)
    ∧ (summarySimple.lengths 3).1 + (summarySimple.lengths 3).2 = 3 := by
  have h := (lengths_min summarySimple 3 (by decide) (by norm_num)).2.2.2.1 (by decide)
  refine ⟨by decide, by decide, by decide, by decide, h.2⟩

/-! ## No write for the empty string -/

theorem mem_writesAt (site : Site) (s : String) (tr : List Call) :
    s ∈ writesAt site tr ↔ Call.write site s ∈ tr := by
  unfold writesAt
  rw [List.mem_filterMap]
  constructor
  · rintro ⟨c, hc, hs⟩
    cases c with
    | write site' t =>
      by_cases h : site' = site
      · simp only [h, if_true, Option.some.injEq] at hs
        subst h; subst hs; exact hc
      · simp [h] at hs
    | element _ _ _ => simp at hs
    | sepFunc _ _ _ => simp at hs
    | summaryFunc _ _ => simp at hs
    | indexPanic _ => simp at hs
  · intro h
    exact ⟨Call.write site s, h, by simp⟩

theorem write_mem_print (site site' : Site) (s t : String)
    (h : Call.write site' t ∈ print site s) : site' = site ∧ t = s ∧ t ≠ "" := by
  unfold print at h
  by_cases hs : s = ""
  · simp [hs] at h
  · simp only [ne_eq, hs, not_false_eq_true, if_true, List.mem_singleton, Call.write.injEq] at h
    exact ⟨h.1, h.2, by rw [h.2]; exact hs⟩

theorem write_mem_fmtSep (cfg : Config) (isNil : Bool) (n last : Int) (site : Site)
    (t : String) (h : Call.write site t ∈ cfg.fmtSep n last) :
    t ≠ "" ∧ t = siteText cfg isNil site := by
  unfold Config.fmtSep at h
  cases hsf : cfg.SepFunc with
  | some sf => simp [hsf] at h
  | none =>
    simp only [hsf] at h
    obtain ⟨h1, h2, h3⟩ := write_mem_print _ _ _ _ h
    subst h1
    exact ⟨h3, h2⟩

theorem write_mem_fmtEnd (cfg : Config) (isNil : Bool) (n : Int) (site : Site)
    (t : String) (h : Call.write site t ∈ cfg.fmtEnd n) :
    t ≠ "" ∧ t = siteText cfg isNil site := by
  unfold Config.fmtEnd at h
  split at h
  · obtain ⟨h1, h2, h3⟩ := write_mem_print _ _ _ _ h
    subst h1
    exact ⟨h3, h2⟩
  · cases hg : cfg.SummaryFunc with
    | some g => simp [hg] at h
    | none =>
      simp only [hg] at h
      obtain ⟨h1, h2, h3⟩ := write_mem_print _ _ _ _ h
      subst h1
      exact ⟨h3, h2⟩

theorem write_mem_loopCalls {α : Type} (cfg : Config) (isNil : Bool)
    (Fprintf : String → α → String) (format : String) (last : Int) (site : Site)
    (t : String) (xs : List α) :
    ∀ i : Nat, Call.write site t ∈ loopCalls cfg Fprintf format last i xs →
      t ≠ "" ∧ t = siteText cfg isNil site := by
  induction xs with
  | nil => intro i h; simp [loopCalls] at h
  | cons x rest ih =>
    intro i h
    simp only [loopCalls, List.mem_append, List.mem_cons] at h
    rcases h with h | h | h
    · by_cases h0 : i = 0
      · simp [h0] at h
      · rw [if_neg h0] at h
        exact write_mem_fmtSep cfg isNil _ _ site t h
    · cases h
    · exact ih (i + 1) h

/-- Every write of any render carries a non-empty string, the one its
statement is given. -/
theorem write_mem_Format {α : Type} (cfg : Config) (Fprintf : String → α → String)
    (f : State) (verb : Int) (v : Value α) (site : Site) (t : String)
    (h : Call.write site t ∈ (Fmt (some cfg) v).Format Fprintf f verb) :
    t ≠ "" ∧ t = siteText cfg v.IsNil site := by
  have hempty : ∀ w : Value α, w.Kind = Kind.Slice → w.Len = 0 →
      Call.write site t ∈ (Fmt (some cfg) w).Format Fprintf f verb →
      t ≠ "" ∧ t = siteText cfg w.IsNil site := by
    intro w hk hl hw
    rw [Format_empty cfg Fprintf f verb w hk hl, fmtEmpty_eq_print] at hw
    obtain ⟨h1, h2, h3⟩ := write_mem_print _ _ _ _ hw
    subst h1
    exact ⟨h3, h2⟩
  cases v with
  | invalid =>
    rw [Format_not_Slice cfg Fprintf f verb _ (by simp [Value.Kind])] at h
    simp only [List.mem_singleton, Call.write.injEq] at h
    obtain ⟨h1, h2⟩ := h
    subst h1; subst h2
    exact ⟨by decide, rfl⟩
  | other k =>
    rw [Format_not_Slice cfg Fprintf f verb _ (by simp [Value.Kind])] at h
    simp only [List.mem_singleton, Call.write.injEq] at h
    obtain ⟨h1, h2⟩ := h
    subst h1; subst h2
    exact ⟨by decide, rfl⟩
  | nilSlice => exact hempty _ rfl rfl h
  | slice xs =>
    by_cases hxs : xs = []
    · subst hxs
      exact hempty _ rfl rfl h
    · rw [Format_slice cfg Fprintf f verb xs hxs] at h
      simp only [List.mem_append, Config.fmtPrefix] at h
      rcases h with (h | h) | h
      · obtain ⟨h1, h2, h3⟩ := write_mem_print _ _ _ _ h
        subst h1
        exact ⟨h3, h2⟩
      · exact write_mem_loopCalls cfg _ Fprintf _ _ site t _ 0 h
      · exact write_mem_fmtEnd cfg _ _ site t h

/-- C17. Writing is skipped for the empty string. `print` issues no call for
`""` and exactly one write carrying `s` for any other `s`. In the render of
any value under any Config every write carries a non-empty string, the one
its statement is given (Prefix, Postfix, Sep, Summary, or the chosen
placeholder); so whenever one of these is `""`, no write is issued for it. The
zero Config on a slice of length 0, nil or not, issues no call at all. -/
theorem no_write_for_empty_string {α : Type} (cfg : Config) (Fprintf : String → α → String)
    (f : State) (verb : Int) (v : Value α) :
    (∀ site, print site "" = [])
      ∧ (∀ site s, s ≠ "" → print site s = [Call.write site s])
      ∧ (∀ site t, Call.write site t ∈ (Fmt (some cfg) v).Format Fprintf f verb →
          t ≠ "" ∧ t = siteText cfg v.IsNil site)
      ∧ (∀ site, siteText cfg v.IsNil site = "" →
          writesAt site ((Fmt (some cfg) v).Format Fprintf f verb) = [])
      ∧ (Fmt (some {}) (Value.nilSlice : Value α)).Format Fprintf f verb = []
      ∧ (Fmt (some {}) (Value.slice ([] : List α))).Format Fprintf f verb = [] := by
  refine ⟨fun site => by simp [print], fun site s hs => by simp [print, hs],
    fun site t h => write_mem_Format cfg Fprintf f verb v site t h, ?_, ?_, ?_⟩
  · intro site hsite
    apply List.eq_nil_iff_forall_not_mem.mpr
    intro t ht
    rw [mem_writesAt] at ht
    obtain ⟨h1, h2⟩ := write_mem_Format cfg Fprintf f verb v site t ht
    exact h1 (by rw [h2, hsite])
  · rw [Format_empty _ Fprintf f verb Value.nilSlice rfl rfl]
    simp [Config.fmtEmpty, print]
  · rw [Format_empty _ Fprintf f verb (Value.slice []) rfl rfl]
    simp [Config.fmtEmpty, print]

/-- C17, at Example_simple: its Config has no Prefix and no Postfix, and the
render of `[1, 2, 3]` writes nothing at those two statements. -/
theorem no_write_for_empty_string_witness :
    writesAt Site.fmtPrefix ((Fmt (some exampleSimple)
        (Value.slice ([1, 2, 3] : List Int))).Format fprintfIntPadded zeroPad2 verbD) = []
    ∧ writesAt Site.fmtPostfix ((Fmt (some exampleSimple)
        (Value.slice ([1, 2, 3] : List Int))).Format fprintfIntPadded zeroPad2 verbD) = []
    ∧ writesAt Site.fmtSep ((Fmt (some exampleSimple)
        (Value.slice ([1, 2, 3] : List Int))).Format fprintfIntPadded zeroPad2 verbD)
      = [" ~ ", " ~ "] := by
  have h := (no_write_for_empty_string exampleSimple fprintfIntPadded zeroPad2 verbD
    (Value.slice ([1, 2, 3] : List Int))).2.2.2.1
  refine ⟨h Site.fmtPrefix rfl, h Site.fmtPostfix rfl, ?_⟩
  rw [writesAt_Sep_Format _ _ _ _ _ (by decide), writesAt_Sep_loopCalls_zero _ rfl]
  simp [exampleSimple, Config.lengths]

/-! ## A truncated render and the render of the kept elements -/

/-- C18. For a Config `cfg` without SummaryFunc and with `CutOff = c > 0`,
and a slice `xs` of length above `c` (a 64-bit int): rendering `xs` under
`cfg` writes the same text as rendering the first `c` elements of `xs`
under `cfg` with CutOff set to 0 and Postfix set to `cfg.Summary`; the two
renders format the same elements and invoke SepFunc with the same
`(n, last)` arguments. -/
theorem truncated_eq_untruncated {α : Type} (cfg : Config) (Fprintf : String → α → String)
    (f : State) (verb : Int) (xs : List α) (hs : cfg.SummaryFunc = none)
    (hc : 0 < cfg.CutOff) (hlt : cfg.CutOff < xs.length) (hlen : (xs.length : Int) < 2 ^ 63) :
    output ((Fmt (some cfg) (Value.slice xs)).Format Fprintf f verb)
        = output ((Fmt (some { cfg with CutOff := 0, Postfix := cfg.Summary })
            (Value.slice (xs.take cfg.CutOff.toNat))).Format Fprintf f verb)
      ∧ sepFuncCalls ((Fmt (some cfg) (Value.slice xs)).Format Fprintf f verb)
        = sepFuncCalls ((Fmt (some { cfg with CutOff := 0, Postfix := cfg.Summary })
            (Value.slice (xs.take cfg.CutOff.toNat))).Format Fprintf f verb)
      ∧ elementCalls ((Fmt (some cfg) (Value.slice xs)).Format Fprintf f verb)
        = elementCalls ((Fmt (some { cfg with CutOff := 0, Postfix := cfg.Summary })
            (Value.slice (xs.take cfg.CutOff.toNat))).Format Fprintf f verb) := by
  have hklen : (xs.take cfg.CutOff.toNat).length = cfg.CutOff.toNat := by
    rw [List.length_take]; omega
  have hkne : xs.take cfg.CutOff.toNat ≠ [] := by
    intro h
    rw [h] at hklen
    simp at hklen
    omega
  have hleft := Format_cut_static cfg Fprintf f verb xs hs hc hlt hlen
  have hright : (Fmt (some { cfg with CutOff := 0, Postfix := cfg.Summary })
      (Value.slice (xs.take cfg.CutOff.toNat))).Format Fprintf f verb
      = cfg.fmtPrefix
        ++ loopCalls cfg Fprintf (fmtFormatString f verb) (cfg.CutOff - 2) 0
            (xs.take cfg.CutOff.toNat)
        ++ print Site.fmtPostfix cfg.Summary := by
    rw [Format_slice _ Fprintf f verb _ hkne,
      lengths_of_zero { cfg with CutOff := 0, Postfix := cfg.Summary } _ rfl,
      loopCalls_congr cfg { cfg with CutOff := 0, Postfix := cfg.Summary } (fun _ _ => rfl)]
    have hN : (((xs.take cfg.CutOff.toNat).length : Nat) : Int) = cfg.CutOff := by
      rw [hklen]; omega
    simp only [hN, List.take_take, min_self]
    simp [Config.fmtEnd, Config.fmtPrefix]
  rw [hleft, hright]
  refine ⟨?_, ?_, ?_⟩
  · simp only [output_append, output_print]
  · simp only [sepFuncCalls_append, sepFuncCalls_print]
  · simp only [elementCalls_append, elementCalls_print]

/-- C18, at Example_summary: `[0, 1, 2, 3]` under Sep `/`, CutOff 2, Summary
` and so on` renders like `[0, 1]` under Sep `/`, no CutOff and Postfix
` and so on`, namely `0/1 and so on`. -/
theorem truncated_eq_untruncated_witness :
    output ((Fmt (some summarySimple) (Value.slice ([0, 1, 2, 3] : List Int))).Format
        fprintfInt plainState verbV)
      = output ((Fmt (some { summarySimple with CutOff := 0, Postfix := " and so on" })
          (Value.slice ([0, 1] : List Int))).Format fprintfInt plainState verbV)
    ∧ output ((Fmt (some { summarySimple with CutOff := 0, Postfix := " and so on" })
          (Value.slice ([0, 1] : List Int))).Format fprintfInt plainState verbV)
      = "0/1 and so on" := by
  have hfmt : fmtFormatString plainState verbV = "%v" := by decide
  refine ⟨(truncated_eq_untruncated summarySimple fprintfInt plainState verbV
    ([0, 1, 2, 3] : List Int) rfl (by decide) (by decide) (by norm_num)).1, ?_⟩
  rw [output_Format _ _ _ _ _ (by decide), hfmt]
  simp [renderText, Config.lengths, elementsText, sepText, endText, fprintfInt, AppendInt,
    formatNat, digitChar, summarySimple]

/-! ## The format string determines the format context -/

theorem toNat_ofNat_of_valid (n : Nat) (h : n.isValidChar) : (Char.ofNat n).toNat = n := by
  unfold Char.ofNat
  simp only [h, dite_true]
  unfold Char.ofNatAux Char.toNat
  simp [UInt32.toNat]

theorem fmtFormatString_data (state : State) (verb : Int) :
    (fmtFormatString state verb).data
      = '%' :: (flagChars state ++ (widthChars state ++ (precisionChars state
          ++ [verbChar verb]))) := by
  rw [fmtFormatString_eq]
  unfold formatStringText widthChars precisionChars
  cases state.Width <;> cases state.Precision <;>
    simp [String.data_append, String.singleton, String.data_push]

theorem digitChar_isDigit : ∀ d, d < 10 → (digitChar d).isDigit = true := by
  unfold digitChar
  decide

theorem digitChar_not_flag : ∀ d, d < 10 → 1 ≤ d → isFlagChar (digitChar d) = false := by
  unfold digitChar isFlagChar knownFlags
  decide

theorem formatNat_all_digits (n : Nat) : ∀ c ∈ (formatNat n).data, c.isDigit = true := by
  unfold formatNat
  by_cases h : n = 0
  · subst h
    decide
  · simp only [h, if_false, List.mem_map, List.mem_reverse]
    rintro c ⟨d, hd, rfl⟩
    exact digitChar_isDigit d (Nat.digits_lt_base (by decide) hd)

theorem formatNat_ne_nil (n : Nat) : (formatNat n).data ≠ [] := by
  unfold formatNat
  by_cases h : n = 0
  · subst h
    decide
  · simp only [h, if_false]
    simpa using Nat.digits_ne_nil_iff_ne_zero.mpr h

/-- The text of a positive number starts with a digit from 1 to 9. -/
theorem formatNat_head (n : Nat) (h : n ≠ 0) :
    ∃ d rest, d < 10 ∧ 1 ≤ d ∧ (formatNat n).data = digitChar d :: rest := by
  have hne : Nat.digits 10 n ≠ [] := Nat.digits_ne_nil_iff_ne_zero.mpr h
  have hlast := Nat.getLast_digit_ne_zero 10 h
  have hmem : (Nat.digits 10 n).getLast hne ∈ Nat.digits 10 n := List.getLast_mem hne
  refine ⟨(Nat.digits 10 n).getLast hne, ((Nat.digits 10 n).dropLast.reverse).map digitChar,
    Nat.digits_lt_base (by decide) hmem, Nat.one_le_iff_ne_zero.mpr hlast, ?_⟩
  unfold formatNat
  simp only [h, if_false]
  conv_lhs => rw [← List.dropLast_append_getLast hne]
  simp

theorem formatNat_injective (a b : Nat) (h : formatNat a = formatNat b) : a = b := by
  rw [← parseNat_formatNat a, ← parseNat_formatNat b, h]

/-- A list of characters that all pass a test, followed by nothing or by a
character that fails it, is recovered by `takeWhile`. -/
theorem takeWhile_append_stop (p : Char → Bool) (F R : List Char)
    (hF : ∀ c ∈ F, p c = true) (hR : R = [] ∨ ∃ c rest, R = c :: rest ∧ p c = false) :
    (F ++ R).takeWhile p = F := by
  rw [List.takeWhile_append_of_pos hF]
  rcases hR with rfl | ⟨c, rest, rfl, hc⟩
  · simp
  · simp [hc]

/-- Filtering a duplicate-free list by two tests gives the same result only
if the tests agree on the list. -/
theorem filter_eq_of_nodup (p q : Char → Bool) :
    ∀ l : List Char, l.Nodup → l.filter p = l.filter q → ∀ c ∈ l, p c = q c := by
  intro l
  induction l with
  | nil => intro _ _ c hc; cases hc
  | cons a rest ih =>
    intro hnd heq c hc
    have hna : a ∉ rest := (List.nodup_cons.mp hnd).1
    have hrest : rest.Nodup := (List.nodup_cons.mp hnd).2
    have hnot : ∀ r : Char → Bool, a ∉ rest.filter r := fun r hmem =>
      hna (List.mem_of_mem_filter hmem)
    cases hp : p a <;> cases hq : q a
    · have heq' : rest.filter p = rest.filter q := by
        simpa [List.filter_cons, hp, hq] using heq
      rcases List.mem_cons.mp hc with rfl | hmem
      · rw [hp, hq]
      · exact ih hrest heq' c hmem
    · have heq' : rest.filter p = a :: rest.filter q := by
        simpa [List.filter_cons, hp, hq] using heq
      exact absurd (by rw [heq']; exact List.mem_cons_self _ _) (hnot p)
    · have heq' : a :: rest.filter p = rest.filter q := by
        simpa [List.filter_cons, hp, hq] using heq
      exact absurd (by rw [← heq']; exact List.mem_cons_self _ _) (hnot q)
    · have heq' : rest.filter p = rest.filter q := by
        simpa [List.filter_cons, hp, hq] using heq
      rcases List.mem_cons.mp hc with rfl | hmem
      · rw [hp, hq]
      · exact ih hrest heq' c hmem

theorem flagChars_all_flag (state : State) : ∀ c ∈ flagChars state, isFlagChar c = true := by
  intro c hc
  have hmem : c ∈ knownFlags := List.mem_of_mem_filter hc
  simpa [isFlagChar] using hmem

theorem widthChars_all_digits (state : State) (hw : ∀ w, state.Width = some w → 1 ≤ w) :
    ∀ c ∈ widthChars state, c.isDigit = true := by
  unfold widthChars
  cases hW : state.Width with
  | none => intro c hc; cases hc
  | some w =>
    have h1 := hw w hW
    simp only []
    rw [decimal_of_nonneg w (by omega)]
    exact formatNat_all_digits _

theorem widthChars_head (state : State) (hw : ∀ w, state.Width = some w → 1 ≤ w) :
    widthChars state = []
      ∨ ∃ c rest, widthChars state = c :: rest ∧ isFlagChar c = false := by
  unfold widthChars
  cases hW : state.Width with
  | none => left; rfl
  | some w =>
    right
    have h1 := hw w hW
    simp only []
    rw [decimal_of_nonneg w (by omega)]
    obtain ⟨d, rest, hd, hd1, hdata⟩ := formatNat_head w.toNat (by omega)
    exact ⟨digitChar d, rest, hdata, digitChar_not_flag d hd hd1⟩

theorem precisionChars_head (state : State) :
    precisionChars state = [] ∨ ∃ rest, precisionChars state = '.' :: rest := by
  unfold precisionChars
  cases state.Precision with
  | none => left; rfl
  | some p => right; exact ⟨_, rfl⟩

theorem Width_eq_of_widthChars (s1 s2 : State) (hw1 : ∀ w, s1.Width = some w → 1 ≤ w)
    (hw2 : ∀ w, s2.Width = some w → 1 ≤ w) (h : widthChars s1 = widthChars s2) :
    s1.Width = s2.Width := by
  unfold widthChars at h
  cases hW1 : s1.Width with
  | none =>
    cases hW2 : s2.Width with
    | none => rfl
    | some w2 =>
      simp only [hW1, hW2] at h
      rw [decimal_of_nonneg w2 (by have := hw2 w2 hW2; omega)] at h
      exact absurd h.symm (formatNat_ne_nil _)
  | some w1 =>
    have h1 := hw1 w1 hW1
    cases hW2 : s2.Width with
    | none =>
      simp only [hW1, hW2] at h
      rw [decimal_of_nonneg w1 (by omega)] at h
      exact absurd h (formatNat_ne_nil _)
    | some w2 =>
      have h2 := hw2 w2 hW2
      simp only [hW1, hW2] at h
      rw [decimal_of_nonneg w1 (by omega), decimal_of_nonneg w2 (by omega)] at h
      have := formatNat_injective _ _ (String.ext h)
      congr 1
      omega

theorem Precision_eq_of_precisionChars (s1 s2 : State)
    (hp1 : ∀ p, s1.Precision = some p → 0 ≤ p)
    (hp2 : ∀ p, s2.Precision = some p → 0 ≤ p)
    (h : precisionChars s1 = precisionChars s2) : s1.Precision = s2.Precision := by
  unfold precisionChars at h
  cases hP1 : s1.Precision with
  | none =>
    cases hP2 : s2.Precision with
    | none => rfl
    | some p2 => simp [hP1, hP2] at h
  | some p1 =>
    have h1 := hp1 p1 hP1
    cases hP2 : s2.Precision with
    | none => simp [hP1, hP2] at h
    | some p2 =>
      have h2 := hp2 p2 hP2
      simp only [hP1, hP2, List.cons.injEq, true_and] at h
      rw [decimal_of_nonneg p1 h1, decimal_of_nonneg p2 h2] at h
      have := formatNat_injective _ _ (String.ext h)
      congr 1
      omega

theorem verb_eq_of_verbChar (v1 v2 : Int) (hv1 : 0 ≤ v1 ∧ v1.toNat.isValidChar)
    (hv2 : 0 ≤ v2 ∧ v2.toNat.isValidChar) (h : verbChar v1 = verbChar v2) : v1 = v2 := by
  unfold verbChar at h
  rw [if_pos hv1, if_pos hv2] at h
  have := congrArg Char.toNat h
  rw [toNat_ofNat_of_valid _ hv1.2, toNat_ofNat_of_valid _ hv2.2] at this
  omega

/-- C19. The rebuilt format string loses nothing of the format context: for
two contexts in which every present width is at least 1, every present
precision is at least 0 and the verb is a Unicode scalar value, equal format
strings force the same flags among ` `, `+`, `-`, `#`, `0`, the same width,
the same precision and the same verb. -/
theorem fmtFormatString_injective (s1 s2 : State) (v1 v2 : Int)
    (hw1 : ∀ w, s1.Width = some w → 1 ≤ w) (hw2 : ∀ w, s2.Width = some w → 1 ≤ w)
    (hp1 : ∀ p, s1.Precision = some p → 0 ≤ p)
    (hp2 : ∀ p, s2.Precision = some p → 0 ≤ p)
    (hv1 : 0 ≤ v1 ∧ v1.toNat.isValidChar) (hv2 : 0 ≤ v2 ∧ v2.toNat.isValidChar)
    (h : fmtFormatString s1 v1 = fmtFormatString s2 v2) :
    (∀ c ∈ knownFlags, s1.Flag (c.toNat : Int) = s2.Flag (c.toNat : Int))
      ∧ s1.Width = s2.Width ∧ s1.Precision = s2.Precision ∧ v1 = v2 := by
  have hdata := congrArg String.data h
  rw [fmtFormatString_data, fmtFormatString_data, List.cons.injEq] at hdata
  have hlists : (flagChars s1 ++ (widthChars s1 ++ precisionChars s1)) ++ [verbChar v1]
      = (flagChars s2 ++ (widthChars s2 ++ precisionChars s2)) ++ [verbChar v2] := by
    simpa [List.append_assoc] using hdata.2
  obtain ⟨hbody, hverb⟩ := List.append_inj' hlists rfl
  have hv : v1 = v2 := verb_eq_of_verbChar v1 v2 hv1 hv2 (by simpa using hverb)
  have hrest : ∀ (s : State), (∀ w, s.Width = some w → 1 ≤ w) →
      (widthChars s ++ precisionChars s = []
        ∨ ∃ c rest, widthChars s ++ precisionChars s = c :: rest ∧ isFlagChar c = false) := by
    intro s hw
    rcases widthChars_head s hw with hW | ⟨c, rest, hW, hc⟩
    · rcases precisionChars_head s with hP | ⟨rest, hP⟩
      · left; rw [hW, hP]; rfl
      · right; exact ⟨'.', rest, by rw [hW, hP]; rfl, by decide⟩
    · right; exact ⟨c, rest ++ precisionChars s, by rw [hW]; rfl, hc⟩
  have hF : flagChars s1 = flagChars s2 := by
    have e1 := takeWhile_append_stop isFlagChar _ _ (flagChars_all_flag s1) (hrest s1 hw1)
    have e2 := takeWhile_append_stop isFlagChar _ _ (flagChars_all_flag s2) (hrest s2 hw2)
    rw [← e1, ← e2, hbody]
  have hWP : widthChars s1 ++ precisionChars s1 = widthChars s2 ++ precisionChars s2 := by
    rw [hF] at hbody
    exact List.append_cancel_left hbody
  have hPstop : ∀ s : State, precisionChars s = []
      ∨ ∃ c rest, precisionChars s = c :: rest ∧ Char.isDigit c = false := by
    intro s
    rcases precisionChars_head s with hP | ⟨rest, hP⟩
    · left; exact hP
    · right; exact ⟨'.', rest, hP, by decide⟩
  have hW : widthChars s1 = widthChars s2 := by
    have e1 := takeWhile_append_stop Char.isDigit _ _ (widthChars_all_digits s1 hw1) (hPstop s1)
    have e2 := takeWhile_append_stop Char.isDigit _ _ (widthChars_all_digits s2 hw2) (hPstop s2)
    rw [← e1, ← e2, hWP]
  have hP : precisionChars s1 = precisionChars s2 := by
    rw [hW] at hWP
    exact List.append_cancel_left hWP
  refine ⟨?_, Width_eq_of_widthChars s1 s2 hw1 hw2 hW,
    Precision_eq_of_precisionChars s1 s2 hp1 hp2 hP, hv⟩
  exact filter_eq_of_nodup _ _ knownFlags (by decide) hF

theorem fmtFormatString_signedPadded :
    fmtFormatString signedPadded verbF = "%+012.3f"
      ∧ fmtFormatString signedPaddedExtra verbF = "%+012.3f" := by
  constructor
  · rw [fmtFormatString_eq]
    simp [formatStringText, flagChars, knownFlags, signedPadded, verbF, decimal, formatNat,
      digitChar, verbChar]
    decide
  · rw [fmtFormatString_eq]
    simp [formatStringText, flagChars, knownFlags, signedPaddedExtra, verbF, decimal,
      formatNat, digitChar, verbChar]
    decide

/-- C19, at `%+012.3f`: two states that both rebuild `%+012.3f` (they differ
in a flag outside the recognised five) agree on the five flags, the width,
the precision and the verb. -/
theorem fmtFormatString_injective_witness :
    fmtFormatString signedPadded verbF = fmtFormatString signedPaddedExtra verbF
    ∧ (∀ c ∈ knownFlags, signedPadded.Flag (c.toNat : Int)
        = signedPaddedExtra.Flag (c.toNat : Int))
    ∧ signedPadded.Width = signedPaddedExtra.Width
    ∧ signedPadded.Precision = signedPaddedExtra.Precision
    ∧ verbF = verbF := by
  have h : fmtFormatString signedPadded verbF = fmtFormatString signedPaddedExtra verbF := by
    rw [fmtFormatString_signedPadded.1, fmtFormatString_signedPadded.2]
  exact ⟨h, fmtFormatString_injective signedPadded signedPaddedExtra verbF verbF
    (by intro w hw; cases hw; decide) (by intro w hw; cases hw; decide)
    (by intro p hp; cases hp; decide) (by intro p hp; cases hp; decide)
    (by decide) (by decide) h⟩

/-! ## Rendering twice -/

theorem WithState_fmtSep_of_readonly {κ : Type} (cfg : ClosureConfig κ) (k : κ)
    (hs : ∀ sf, cfg.SepFunc = some sf → ∀ n last, (sf k n last).2 = k) (n last : Int) :
    WithState.fmtSep cfg k n last = ((cfg.freeze k).fmtSep n last, k) := by
  unfold WithState.fmtSep Config.fmtSep ClosureConfig.freeze
  cases hsf : cfg.SepFunc with
  | none => rfl
  | some sf => simp [hs sf hsf n last]

theorem WithState_fmtEnd_of_readonly {κ : Type} (cfg : ClosureConfig κ) (k : κ)
    (hg : ∀ g, cfg.SummaryFunc = some g → ∀ n, (g k n).2 = k) (n : Int) :
    WithState.fmtEnd cfg k n = ((cfg.freeze k).fmtEnd n, k) := by
  unfold WithState.fmtEnd Config.fmtEnd ClosureConfig.freeze
  by_cases h0 : n = 0
  · simp [h0]
  · simp only [h0, if_false]
    cases hgf : cfg.SummaryFunc with
    | none => rfl
    | some g => simp [hg g hgf n]

theorem WithState_formatLoop_of_readonly {κ α : Type} (cfg : ClosureConfig κ) (k : κ)
    (hs : ∀ sf, cfg.SepFunc = some sf → ∀ n last, (sf k n last).2 = k)
    (Fprintf : String → α → String) (format : String) (v : Value α) (N : Int) :
    ∀ (m : Nat) (i : Int), (N - i).toNat = m →
      WithState.formatLoop cfg Fprintf format v N i k
        = (formatLoop (cfg.freeze k) Fprintf format v N i, k) := by
  intro m
  induction m with
  | zero =>
    intro i hm
    have hlt : ¬ i < N := by omega
    rw [WithState.formatLoop, formatLoop, if_neg hlt, if_neg hlt]
  | succ m ih =>
    intro i hm
    have hlt : i < N := by omega
    rw [WithState.formatLoop, formatLoop, if_pos hlt, if_pos hlt]
    have hsep : (if i ≠ 0 then WithState.fmtSep cfg k (i - 1) (N - 2) else ([], k))
        = ((if i ≠ 0 then (cfg.freeze k).fmtSep (i - 1) (N - 2) else []), k) := by
      by_cases h0 : i = 0
      · simp [h0]
      · simp only [ne_eq, h0, not_false_eq_true, if_true]
        exact WithState_fmtSep_of_readonly cfg k hs _ _
    simp only [hsep]
    cases v.Index i with
    | none => rfl
    | some x =>
      simp only []
      rw [ih (i + 1) (by omega)]

/-- With callbacks that leave their state as they find it, the render with
state is the render of the frozen Config, and the state is left as found. -/
theorem WithState_Format_of_readonly {κ α : Type} (cfg : ClosureConfig κ) (k : κ)
    (hs : ∀ sf, cfg.SepFunc = some sf → ∀ n last, (sf k n last).2 = k)
    (hg : ∀ g, cfg.SummaryFunc = some g → ∀ n, (g k n).2 = k)
    (Fprintf : String → α → String) (f : State) (verb : Int) (v : Value α) :
    WithState.Format (some cfg) v Fprintf f verb k
      = ((Fmt (some (cfg.freeze k)) v).Format Fprintf f verb, k) := by
  unfold WithState.Format pair.Format Fmt
  simp only []
  split
  · rfl
  · split
    · rfl
    · have hlen : WithState.lengths cfg v.Len = (cfg.freeze k).lengths v.Len := rfl
      simp only [hlen]
      rw [WithState_formatLoop_of_readonly cfg k hs Fprintf _ v _ _ 0 rfl]
      simp only [WithState_fmtEnd_of_readonly cfg k hg]
      rfl

/-- C15, where the claim fails. A Config whose SepFunc counts its own
invocations, rendering `[1, 2]` twice: the first render writes `1-2` and
leaves the counter at 1, the second, of the same Config, slice, state and
verb, writes `1--2`. The two outputs differ. -/
theorem stateful_SepFunc_renders_differ :
    output (WithState.Format (some countingSep) (Value.slice ([1, 2] : List Int))
        fprintfInt plainState verbV 0).1 = "1-2"
    ∧ (WithState.Format (some countingSep) (Value.slice ([1, 2] : List Int))
        fprintfInt plainState verbV 0).2 = 1
    ∧ output (WithState.Format (some countingSep) (Value.slice ([1, 2] : List Int))
        fprintfInt plainState verbV
        (WithState.Format (some countingSep) (Value.slice ([1, 2] : List Int))
          fprintfInt plainState verbV 0).2).1 = "1--2"
    ∧ output (WithState.Format (some countingSep) (Value.slice ([1, 2] : List Int))
        fprintfInt plainState verbV 0).1
      ≠ output (WithState.Format (some countingSep) (Value.slice ([1, 2] : List Int))
        fprintfInt plainState verbV
        (WithState.Format (some countingSep) (Value.slice ([1, 2] : List Int))
          fprintfInt plainState verbV 0).2).1 := by
  have hfmt : fmtFormatString plainState verbV = "%v" := by decide
  have h1 : WithState.Format (some countingSep) (Value.slice ([1, 2] : List Int))
      fprintfInt plainState verbV 0
      = ([Call.element "%v" 0 "1", Call.sepFunc 0 0 "-", Call.element "%v" 1 "2"], 1) := by
    simp [WithState.Format, WithState.formatLoop, WithState.lengths, WithState.fmtSep,
      WithState.fmtEnd, WithState.fmtPrefix, print, countingSep, hfmt, Value.IsValid,
      Value.Kind, Value.Len, Value.elems, Value.Index, fprintfInt, AppendInt, formatNat,
      digitChar]
  have h2 : WithState.Format (some countingSep) (Value.slice ([1, 2] : List Int))
      fprintfInt plainState verbV 1
      = ([Call.element "%v" 0 "1", Call.sepFunc 0 0 "--", Call.element "%v" 1 "2"], 2) := by
    simp [WithState.Format, WithState.formatLoop, WithState.lengths, WithState.fmtSep,
      WithState.fmtEnd, WithState.fmtPrefix, print, countingSep, hfmt, Value.IsValid,
      Value.Kind, Value.Len, Value.elems, Value.Index, fprintfInt, AppendInt, formatNat,
      digitChar]
  refine ⟨?_, ?_, ?_, ?_⟩
  · rw [h1]
    decide
  · rw [h1]
  · simp only [h1, h2]
    decide
  · simp only [h1, h2]
    decide

/-- C15, amended. Rendering is repeatable when the callbacks keep no state of
their own between calls. For a Config whose SepFunc and SummaryFunc, where
set, leave their state as they find it: the render leaves that state as it
found it and makes exactly the calls of `pair.Format` for the Config frozen
at that state, so a second render of the same Config, value, format state
and verb, started where the first ended, makes the same calls and writes the
same text. `Format` itself keeps nothing from one render to the next. -/
theorem render_twice_of_readonly_callbacks {κ α : Type} (cfg : ClosureConfig κ) (k : κ)
    (Fprintf : String → α → String) (f : State) (verb : Int) (v : Value α)
    (hs : ∀ sf, cfg.SepFunc = some sf → ∀ n last, (sf k n last).2 = k)
    (hg : ∀ g, cfg.SummaryFunc = some g → ∀ n, (g k n).2 = k) :
    WithState.Format (some cfg) v Fprintf f verb k
        = ((Fmt (some (cfg.freeze k)) v).Format Fprintf f verb, k)
      ∧ WithState.Format (some cfg) v Fprintf f verb
          (WithState.Format (some cfg) v Fprintf f verb k).2
        = WithState.Format (some cfg) v Fprintf f verb k
      ∧ output (WithState.Format (some cfg) v Fprintf f verb
          (WithState.Format (some cfg) v Fprintf f verb k).2).1
        = output (WithState.Format (some cfg) v Fprintf f verb k).1 := by
  have h := WithState_Format_of_readonly cfg k hs hg Fprintf f verb v
  have h2 : WithState.Format (some cfg) v Fprintf f verb
      (WithState.Format (some cfg) v Fprintf f verb k).2
      = WithState.Format (some cfg) v Fprintf f verb k := by
    rw [h]
    exact h
  exact ⟨h, h2, by rw [h2]⟩

/-- C15 amended, at Example_commas: the `, ` / ` and ` SepFunc, a closure
that leaves its state alone, renders `[0, 1, 2, 3]` as `0, 1, 2 and 3` the
first time and, started where the first render ended, the second time. -/
theorem render_twice_of_readonly_callbacks_witness :
    output (WithState.Format (some readingSep) (Value.slice ([0, 1, 2, 3] : List Int))
        fprintfInt plainState verbV 0).1 = "0, 1, 2 and 3"
    ∧ output (WithState.Format (some readingSep) (Value.slice ([0, 1, 2, 3] : List Int))
        fprintfInt plainState verbV
        (WithState.Format (some readingSep) (Value.slice ([0, 1, 2, 3] : List Int))
          fprintfInt plainState verbV 0).2).1 = "0, 1, 2 and 3" := by
  have h := render_twice_of_readonly_callbacks readingSep 0 fprintfInt plainState verbV
    (Value.slice ([0, 1, 2, 3] : List Int))
    (by intro sf hsf n last; cases hsf; rfl) (by intro g hg; cases hg)
  have hfmt : fmtFormatString plainState verbV = "%v" := by decide
  have hout : output (WithState.Format (some readingSep)
      (Value.slice ([0, 1, 2, 3] : List Int)) fprintfInt plainState verbV 0).1
      = "0, 1, 2 and 3" := by
    rw [h.1]
    simp only []
    rw [output_Format _ _ _ _ _ (by decide), hfmt]
    simp [renderText, Config.lengths, elementsText, sepText, endText, fprintfInt, AppendInt,
      formatNat, digitChar, readingSep, ClosureConfig.freeze]
  exact ⟨hout, by rw [h.2.2]; exact hout⟩

end Slicefmt
